import Mathlib

/-!
Verification development for the `web-transport` repository.

We shallowly embed the wire codec (`web-transport-proto`: VarInt framing,
SETTINGS, CONNECT request/response, capsules) and the quiche session layer
(`web-transport-quiche`: stream-accept header dispatch, stream drop policy).
Byte streams are modelled as `List Nat` (each element a byte value), async
readers become pure functions from the byte list to a result together with
the unread remainder, and the Rust `HashMap` of settings becomes an
association list with overwriting insert.

Definitions marked `Modelled from the spec:` correspond to code of the
repository that is not part of the provided sources (the `VarInt`, `Frame`,
`StreamUni` and `qpack` modules of `web-transport-proto`), or to external
crates (`sfv`, `http`, `url`); they follow the specification's description
of those parts.
-/

namespace WebTransport

/-! ## Big-endian byte groups -/

/-- Interpret a list of bytes as a big-endian natural number. -/
def fromBytesBE (bs : List Nat) : Nat :=
  bs.foldl (fun acc b => acc * 256 + b) 0

/-- `toBytesBE n v` is the `n`-byte big-endian representation of `v`
(assuming `v < 256 ^ n`). -/
def toBytesBE : Nat → Nat → List Nat
  | 0, _ => []
  | n + 1, v => v / 256 ^ n :: toBytesBE n (v % 256 ^ n)

theorem length_toBytesBE (n v : Nat) : (toBytesBE n v).length = n := by
  induction n generalizing v with
  | zero => rfl
  | succ n ih => simp [toBytesBE, ih]

theorem foldl_base (bs : List Nat) (acc : Nat) :
    bs.foldl (fun acc b => acc * 256 + b) acc
      = acc * 256 ^ bs.length + fromBytesBE bs := by
  induction bs generalizing acc with
  | nil => simp [fromBytesBE]
  | cons b bs ih =>
    simp only [List.foldl_cons, List.length_cons, fromBytesBE, Nat.zero_mul,
      Nat.zero_add]
    rw [ih (acc * 256 + b), ih b]
    ring

theorem fromBytesBE_cons (b : Nat) (bs : List Nat) :
    fromBytesBE (b :: bs) = b * 256 ^ bs.length + fromBytesBE bs := by
  simp only [fromBytesBE, List.foldl_cons]
  simpa using foldl_base bs b

theorem fromBytesBE_toBytesBE {n v : Nat} (h : v < 256 ^ n) :
    fromBytesBE (toBytesBE n v) = v := by
  induction n generalizing v with
  | zero =>
    simp only [pow_zero, Nat.lt_one_iff] at h
    simp [toBytesBE, fromBytesBE, h]
  | succ n ih =>
    have hmod : v % 256 ^ n < 256 ^ n := Nat.mod_lt _ (by positivity)
    rw [toBytesBE, fromBytesBE_cons, length_toBytesBE, ih hmod,
      Nat.div_add_mod']

/-! ## VarInt (QUIC variable-length integer)

Modelled from the spec: the `VarInt` module of `web-transport-proto` is not
among the provided sources.  A VarInt is a value in `[0, 2^62)` serialized in
1, 2, 4 or 8 bytes; the top two bits of the first byte select the length
class and the encoder always chooses the shortest class. -/

namespace VarInt

/-- Modelled from the spec: `VarInt::encode` — shortest length class, top two
bits of the first byte are the class tag. -/
def encode (v : Nat) : List Nat :=
  if v < 2 ^ 6 then toBytesBE 1 v
  else if v < 2 ^ 14 then toBytesBE 2 (1 * (64 * 256 ^ 1) + v)
  else if v < 2 ^ 30 then toBytesBE 4 (2 * (64 * 256 ^ 3) + v)
  else toBytesBE 8 (3 * (64 * 256 ^ 7) + v)

/-- Modelled from the spec: `VarInt::decode` — the first byte's top two bits
give the length class; fails (`none`) when fewer bytes are available than the
class requires.  Returns the value and the unread remainder. -/
def decode : List Nat → Option (Nat × List Nat)
  | [] => none
  | b :: rest =>
    let extra := 2 ^ (b / 64) - 1
    if rest.length < extra then none
    else some (fromBytesBE (b % 64 :: rest.take extra), rest.drop extra)

theorem decode_block {tag m : Nat} (v : Nat) (t : List Nat)
    (hm : m + 1 = 2 ^ tag) (hv : v < 64 * 256 ^ m) :
    decode (toBytesBE (m + 1) (tag * (64 * 256 ^ m) + v) ++ t)
      = some (v, t) := by
  have hpow : (0:Nat) < 256 ^ m := by positivity
  set w := tag * (64 * 256 ^ m) + v with hw
  have hsplit : w = v + tag * 64 * 256 ^ m := by rw [hw]; ring
  have hdiv : w / 256 ^ m = tag * 64 + v / 256 ^ m := by
    rw [hsplit, Nat.add_mul_div_right _ _ hpow, Nat.add_comm]
  have hvlt : v / 256 ^ m < 64 := Nat.div_lt_of_lt_mul (by linarith)
  have hb64 : (tag * 64 + v / 256 ^ m) / 64 = tag := by
    rw [Nat.mul_comm tag 64, Nat.mul_add_div (by norm_num),
      Nat.div_eq_of_lt hvlt, Nat.add_zero]
  have hbmod : (tag * 64 + v / 256 ^ m) % 64 = v / 256 ^ m := by
    rw [Nat.mul_comm tag 64, Nat.mul_add_mod, Nat.mod_eq_of_lt hvlt]
  have hwmod : w % 256 ^ m = v % 256 ^ m := by
    rw [hsplit, Nat.add_mul_mod_self_right]
  rw [toBytesBE, hdiv]
  simp only [List.cons_append, decode, hb64, ← hm, Nat.add_sub_cancel]
  have hlen : (toBytesBE m (w % 256 ^ m) ++ t).length = m + t.length := by
    simp [length_toBytesBE]
  rw [if_neg (by simp [hlen])]
  rw [List.take_left' (length_toBytesBE m (w % 256 ^ m)),
    List.drop_left' (length_toBytesBE m (w % 256 ^ m)),
    hbmod, hwmod, fromBytesBE_cons, length_toBytesBE,
    fromBytesBE_toBytesBE (Nat.mod_lt _ hpow), Nat.div_add_mod']

/-- Round trip: decoding the encoding of any `v < 2^62` consumes exactly the
encoded bytes and returns `v`. -/
theorem decode_encode (v : Nat) (hv : v < 2 ^ 62) (t : List Nat) :
    decode (encode v ++ t) = some (v, t) := by
  unfold encode
  by_cases h1 : v < 2 ^ 6
  · rw [if_pos h1]
    have := @decode_block 0 0 v t (by norm_num)
      (by norm_num at h1 ⊢; omega)
    simpa using this
  · rw [if_neg h1]
    by_cases h2 : v < 2 ^ 14
    · rw [if_pos h2]
      exact @decode_block 1 1 v t (by norm_num)
        (by norm_num at h2 ⊢; omega)
    · rw [if_neg h2]
      by_cases h3 : v < 2 ^ 30
      · rw [if_pos h3]
        exact @decode_block 2 3 v t (by norm_num)
          (by norm_num at h3 ⊢; omega)
      · rw [if_neg h3]
        exact @decode_block 3 7 v t (by norm_num)
          (by norm_num at hv ⊢; omega)

/-- Successful decoding consumes at least one byte. -/
theorem decode_shrinks {l rest : List Nat} {v : Nat}
    (h : decode l = some (v, rest)) : rest.length < l.length := by
  match l with
  | [] => simp [decode] at h
  | b :: r =>
    simp only [decode] at h
    split at h
    · exact absurd h (by simp)
    · have := congrArg (fun p => (Prod.snd <$> p : Option (List Nat))) h
      simp at this
      subst this
      simp only [List.length_cons, List.length_drop]
      omega

end VarInt

/-! ## GREASE predicates -/

/-- `Setting::is_grease` / `Frame::is_grease` (settings.rs): ids of the form
`0x21 + 0x1f·N`. -/
def settingIsGrease (val : Nat) : Bool :=
  if val < 0x21 then false else (val - 0x21) % 0x1f == 0

/-- `is_grease` from capsule.rs: capsule types of the form `0x29·N + 0x17`;
returns `N` when the value is a grease type. -/
def capsuleGrease (val : Nat) : Option Nat :=
  if val < 0x17 then none
  else
    let num := (val - 0x17) / 0x29
    if val = 0x29 * num + 0x17 then some num else none

/-! ## Stream, frame and setting constants -/

/-- `StreamUni::CONTROL` (spec §3). -/
def StreamUni.CONTROL : Nat := 0x00

/-- `StreamUni::QPACK_ENCODER`. -/
def StreamUni.QPACK_ENCODER : Nat := 0x02

/-- `StreamUni::QPACK_DECODER`. -/
def StreamUni.QPACK_DECODER : Nat := 0x03

/-- `StreamUni::WEBTRANSPORT`. -/
def StreamUni.WEBTRANSPORT : Nat := 0x54

/-- `Frame::DATA`. -/
def Frame.DATA : Nat := 0x00

/-- `Frame::HEADERS`. -/
def Frame.HEADERS : Nat := 0x01

/-- `Frame::SETTINGS`. -/
def Frame.SETTINGS : Nat := 0x04

/-- `Frame::WEBTRANSPORT`. -/
def Frame.WEBTRANSPORT : Nat := 0x41

/-- Modelled from the spec: `MAX_FRAME_SIZE` — the 65 536-byte ceiling for
handshake frames. -/
def maxFrameSize : Nat := 65536

/-! ## UTF-8 validity

Modelled from the spec: the capsule reason and header field values are UTF-8
(`String::from_utf8` in the source); this is the standard UTF-8 byte-sequence
validity check. -/

def utf8Cont (b : Nat) : Bool := 0x80 ≤ b && b < 0xC0

/-- Number of continuation bytes demanded by a lead byte; `none` when the
byte can never start a valid sequence. -/
def utf8Lead (b : Nat) : Option Nat :=
  if b < 0x80 then some 0
  else if b < 0xC2 then none
  else if b < 0xE0 then some 1
  else if b < 0xF0 then some 2
  else if b < 0xF5 then some 3
  else none

/-- Constraint on the first continuation byte (rules out overlong forms and
surrogates). -/
def utf8First (b c1 : Nat) : Bool :=
  if b = 0xE0 then 0xA0 ≤ c1 && c1 < 0xC0
  else if b = 0xED then 0x80 ≤ c1 && c1 < 0xA0
  else if b = 0xF0 then 0x90 ≤ c1 && c1 < 0xC0
  else if b = 0xF4 then 0x80 ≤ c1 && c1 < 0x90
  else utf8Cont c1

/-- Fuelled UTF-8 validity check; the fuel only has to dominate the number
of bytes. -/
def isUtf8Go : Nat → List Nat → Bool
  | _, [] => true
  | 0, _ :: _ => false
  | fuel + 1, b :: r =>
    match utf8Lead b with
    | none => false
    | some 0 => isUtf8Go fuel r
    | some (k + 1) =>
      decide (k + 1 ≤ r.length) && utf8First b (r.getD 0 0)
        && (List.range k).all (fun i => utf8Cont (r.getD (i + 1) 0))
        && isUtf8Go fuel (r.drop (k + 1))

def isUtf8 (l : List Nat) : Bool := isUtf8Go l.length l

/-- ASCII bytes are always valid UTF-8. -/
theorem isUtf8_of_ascii {l : List Nat} (h : ∀ b ∈ l, b < 0x80) :
    isUtf8 l = true := by
  unfold isUtf8
  induction l with
  | nil => rfl
  | cons b r ih =>
    have hb : b < 0x80 := h b (by simp)
    simp only [List.length_cons, isUtf8Go, utf8Lead, if_pos hb]
    exact ih fun x hx => h x (by simp [hx])

/-! ## Capsule (capsule.rs) -/

/-- `CLOSE_WEBTRANSPORT_SESSION_TYPE` (capsule.rs). -/
def closeSessionType : Nat := 0x2843

/-- `MAX_MESSAGE_SIZE` (capsule.rs). -/
def maxMessageSize : Nat := 1024

/-- `Capsule` (capsule.rs).  The close reason and unknown payload are byte
lists (Rust `String` / `Bytes`). -/
inductive Capsule where
  | close (code : Nat) (reason : List Nat)
  | grease (num : Nat)
  | unknown (typ : Nat) (payload : List Nat)
deriving DecidableEq

/-- `CapsuleError` (capsule.rs); the `Io` variant cannot occur in the pure
model. -/
inductive CapsuleError where
  | unexpectedEnd
  | invalidUtf8
  | messageTooLong
  | varInt
deriving DecidableEq

/-- `Capsule::encode` (capsule.rs).  The close code is written as a u32
big-endian (meaningful for `code < 2^32`); the grease type is
`0x29·num + 0x17`. -/
def Capsule.encode : Capsule → List Nat
  | .close code reason =>
    VarInt.encode closeSessionType ++ VarInt.encode (4 + reason.length)
      ++ toBytesBE 4 code ++ reason
  | .grease num =>
    VarInt.encode (0x29 * num + 0x17) ++ VarInt.encode 0
  | .unknown typ payload =>
    VarInt.encode typ ++ VarInt.encode payload.length ++ payload

/-- `Capsule::decode` (capsule.rs): returns the capsule and the unread
remainder of the buffer. -/
def Capsule.decode (l : List Nat) : Except CapsuleError (Capsule × List Nat) :=
  match VarInt.decode l with
  | none => .error .varInt
  | some (typ, r1) =>
    match VarInt.decode r1 with
    | none => .error .varInt
    | some (len, r2) =>
      if maxMessageSize < len then .error .messageTooLong
      else if r2.length < len then .error .unexpectedEnd
      else
        let payload := r2.take len
        let rest := r2.drop len
        match capsuleGrease typ with
        | some num => .ok (.grease num, rest)
        | none =>
          if typ = closeSessionType then
            if payload.length < 4 then .error .unexpectedEnd
            else
              let code := fromBytesBE (payload.take 4)
              let reason := payload.drop 4
              if maxMessageSize < reason.length then .error .messageTooLong
              else if isUtf8 reason then .ok (.close code reason, rest)
              else .error .invalidUtf8
          else .ok (.unknown typ payload, rest)

/-- `Capsule::read` (capsule.rs): the async reader on a byte stream.  A
failure of the first VarInt read yields `Ok(None)`; later truncation is an
error. -/
def Capsule.read (l : List Nat) :
    Except CapsuleError (Option Capsule × List Nat) :=
  match VarInt.decode l with
  | none => .ok (none, l)
  | some (typ, r1) =>
    match VarInt.decode r1 with
    | none => .error .unexpectedEnd
    | some (len, r2) =>
      if maxMessageSize < len then .error .messageTooLong
      else
        match capsuleGrease typ with
        | some num =>
          if r2.length < len then .error .unexpectedEnd
          else .ok (some (.grease num), r2.drop len)
        | none =>
          if r2.length < len then .error .unexpectedEnd
          else
            let buf := r2.take len
            if typ = closeSessionType then
              if buf.length < 4 then .error .unexpectedEnd
              else
                let code := fromBytesBE (buf.take 4)
                let reason := buf.drop 4
                if isUtf8 reason then .ok (some (.close code reason), r2.drop len)
                else .error .invalidUtf8
            else .ok (some (.unknown typ buf), r2.drop len)

/-! ## Settings (settings.rs) -/

/-- `Setting::ENABLE_CONNECT_PROTOCOL`. -/
def Setting.ENABLE_CONNECT_PROTOCOL : Nat := 0x8

/-- `Setting::ENABLE_DATAGRAM`. -/
def Setting.ENABLE_DATAGRAM : Nat := 0x33

/-- `Setting::ENABLE_DATAGRAM_DEPRECATED`. -/
def Setting.ENABLE_DATAGRAM_DEPRECATED : Nat := 0xFFD277

/-- `Setting::WEBTRANSPORT_ENABLE_DEPRECATED`. -/
def Setting.WEBTRANSPORT_ENABLE_DEPRECATED : Nat := 0x2b603742

/-- `Setting::WEBTRANSPORT_MAX_SESSIONS_DEPRECATED`. -/
def Setting.WEBTRANSPORT_MAX_SESSIONS_DEPRECATED : Nat := 0x2b603743

/-- `Setting::WEBTRANSPORT_MAX_SESSIONS`. -/
def Setting.WEBTRANSPORT_MAX_SESSIONS : Nat := 0xc671706a

/-- `SettingsError` (settings.rs); the `Io` variant cannot occur in the pure
model. -/
inductive SettingsError where
  | unexpectedEnd
  | unexpectedStreamType (typ : Nat)
  | unexpectedFrame (typ : Nat)
  | invalidSize
  | frameTooLarge
deriving DecidableEq

/-- The settings map (`Settings(HashMap<Setting, VarInt>)`), embedded as an
association list without duplicate keys; `insert` overwrites. -/
abbrev Settings := List (Nat × Nat)

/-- `HashMap::get`. -/
def Settings.get (s : Settings) (k : Nat) : Option Nat :=
  (s.find? (fun p => p.1 == k)).map (·.2)

/-- `HashMap::insert`: overwrite the binding if present, append otherwise. -/
def Settings.insert (s : Settings) (k v : Nat) : Settings :=
  if s.any (fun p => p.1 == k) then
    s.map (fun p => if p.1 == k then (k, v) else p)
  else s ++ [(k, v)]

/-- `Settings::supports_webtransport` (settings.rs): the negotiated session
cap.  `Option.or` mirrors Rust's `Option::or` exactly. -/
def Settings.supportsWebtransport (s : Settings) : Nat :=
  let datagram := (s.get Setting.ENABLE_DATAGRAM).or
    (s.get Setting.ENABLE_DATAGRAM_DEPRECATED)
  if datagram ≠ some 1 then 0
  else
    match s.get Setting.WEBTRANSPORT_MAX_SESSIONS with
    | some mx => mx
    | none =>
      if s.get Setting.WEBTRANSPORT_ENABLE_DEPRECATED ≠ some 1 then 0
      else (s.get Setting.WEBTRANSPORT_MAX_SESSIONS_DEPRECATED).getD 1

/-- The id/value pair loop of `Settings::encode` (settings.rs): each pair is
an id VarInt followed by a value VarInt. -/
def Settings.encodePairs (s : List (Nat × Nat)) : List Nat :=
  s.flatMap (fun p => VarInt.encode p.1 ++ VarInt.encode p.2)

/-- `Settings::encode` (settings.rs): CONTROL stream type, SETTINGS frame
type, payload length, payload. -/
def Settings.encode (s : Settings) : List Nat :=
  VarInt.encode StreamUni.CONTROL ++ VarInt.encode Frame.SETTINGS
    ++ VarInt.encode (Settings.encodePairs s).length ++ Settings.encodePairs s

/-- The payload loop of `Settings::decode` / `Settings::read` (settings.rs):
decode id/value pairs until the payload is exhausted, discarding GREASE ids;
a truncated VarInt is `InvalidSize`.  The fuel dominates the byte count and
the zero-fuel branch on a nonempty list is unreachable from the wrapper. -/
def Settings.decodePairsGo : Nat → List Nat → Settings →
    Except SettingsError Settings
  | _, [], acc => .ok acc
  | 0, _ :: _, _ => .error .invalidSize
  | fuel + 1, b :: r, acc =>
    match VarInt.decode (b :: r) with
    | none => .error .invalidSize
    | some (id, r1) =>
      match VarInt.decode r1 with
      | none => .error .invalidSize
      | some (v, r2) =>
        Settings.decodePairsGo fuel r2
          (if settingIsGrease id then acc else acc.insert id v)

/-- The pair-decoding loop at its natural fuel. -/
def Settings.decodePairs (data : List Nat) (acc : Settings) :
    Except SettingsError Settings :=
  Settings.decodePairsGo data.length data acc

/-- Modelled from the spec: `Frame::read` on a buffer — type VarInt, length
VarInt, then exactly `length` payload bytes; fails when fewer are
available.  Returns (type, payload, remainder). -/
def Frame.readBuf (l : List Nat) : Option (Nat × List Nat × List Nat) :=
  match VarInt.decode l with
  | none => none
  | some (typ, r1) =>
    match VarInt.decode r1 with
    | none => none
    | some (len, r2) =>
      if r2.length < len then none
      else some (typ, r2.take len, r2.drop len)

/-- `Settings::decode` (settings.rs): expects the CONTROL stream type then a
single SETTINGS frame.  No GREASE-frame skipping on this path. -/
def Settings.decode (l : List Nat) : Except SettingsError Settings :=
  match VarInt.decode l with
  | none => .error .unexpectedEnd
  | some (typ, r) =>
    if typ ≠ StreamUni.CONTROL then .error (.unexpectedStreamType typ)
    else
      match Frame.readBuf r with
      | none => .error .unexpectedEnd
      | some (ftyp, data, _) =>
        if ftyp ≠ Frame.SETTINGS then .error (.unexpectedFrame ftyp)
        else Settings.decodePairs data []

/-- The frame loop of `Settings::read` (settings.rs): skip GREASE frames,
reject oversized frames, reject non-SETTINGS frames, then decode the
SETTINGS payload.  Returns the settings and the unread remainder.  The
zero-fuel branch is unreachable from the wrapper. -/
def Settings.readFramesGo : Nat → List Nat →
    Except SettingsError (Settings × List Nat)
  | 0, _ => .error .unexpectedEnd
  | fuel + 1, l =>
    match VarInt.decode l with
    | none => .error .unexpectedEnd
    | some (ftyp, r1) =>
      match VarInt.decode r1 with
      | none => .error .unexpectedEnd
      | some (size, r2) =>
        if maxFrameSize < size then .error .frameTooLarge
        else if settingIsGrease ftyp then
          if r2.length < size then .error .unexpectedEnd
          else Settings.readFramesGo fuel (r2.drop size)
        else
          if r2.length < size then .error .unexpectedEnd
          else if ftyp ≠ Frame.SETTINGS then .error (.unexpectedFrame ftyp)
          else (Settings.decodePairs (r2.take size) []).map
            (fun s => (s, r2.drop size))

/-- `Settings::read` (settings.rs): check the CONTROL stream type, then run
the frame loop. -/
def Settings.read (l : List Nat) :
    Except SettingsError (Settings × List Nat) :=
  match VarInt.decode l with
  | none => .error .unexpectedEnd
  | some (typ, r) =>
    if typ ≠ StreamUni.CONTROL then .error (.unexpectedStreamType typ)
    else Settings.readFramesGo (r.length + 1) r

/-! ## Stateless header block

Modelled from the spec: the `qpack` module of `web-transport-proto` is not
among the provided sources.  A header block is a two-byte zero prefix
followed by literal-with-literal-name field lines: a `0x30`-based byte with a
3-bit length prefix for the name, then a 7-bit length prefix byte for the
value, Huffman bit clear in both. -/

/-- Little-endian 7-bit continuation groups, the tail of an HPACK-style
prefix integer.  The fuel dominates the value; the zero-fuel branch is
unreachable from `extBytes`. -/
def extBytesGo : Nat → Nat → List Nat
  | 0, v => [v % 128]
  | fuel + 1, v =>
    if v < 128 then [v] else (v % 128 + 128) :: extBytesGo fuel (v / 128)

def extBytes (v : Nat) : List Nat := extBytesGo v v

def extDecode : List Nat → Option (Nat × List Nat)
  | [] => none
  | b :: r =>
    if b < 128 then some (b, r)
    else
      match extDecode r with
      | some (v, r2) => some (v * 128 + (b - 128), r2)
      | none => none

theorem extDecode_extBytesGo (fuel : Nat) :
    ∀ v t, v ≤ fuel → extDecode (extBytesGo fuel v ++ t) = some (v, t) := by
  induction fuel with
  | zero =>
    intro v t hv
    interval_cases v
    simp [extBytesGo, extDecode]
  | succ fuel ih =>
    intro v t hv
    by_cases h : v < 128
    · simp [extBytesGo, extDecode, h]
    · have hrec : v / 128 ≤ fuel := by
        have : v / 128 < v := Nat.div_lt_self (by omega) (by norm_num)
        omega
      simp only [extBytesGo, if_neg h, List.cons_append, extDecode]
      rw [if_neg (by omega), ih (v / 128) t hrec]
      simp only [Nat.add_sub_cancel, Option.some.injEq, Prod.mk.injEq,
        and_true]
      exact Nat.div_add_mod' v 128

theorem extDecode_extBytes (v : Nat) (t : List Nat) :
    extDecode (extBytes v ++ t) = some (v, t) :=
  extDecode_extBytesGo v v t (le_refl v)

/-- Encoding of an `nbits`-bit prefix integer: the bits that go into the
flag byte plus the extension bytes. -/
def prefixIntEncode (nbits v : Nat) : Nat × List Nat :=
  if v < 2 ^ nbits - 1 then (v, [])
  else (2 ^ nbits - 1, extBytes (v - (2 ^ nbits - 1)))

def prefixIntDecode (nbits first : Nat) (rest : List Nat) :
    Option (Nat × List Nat) :=
  if first < 2 ^ nbits - 1 then some (first, rest)
  else
    match extDecode rest with
    | some (v, r) => some (v + (2 ^ nbits - 1), r)
    | none => none

theorem prefixIntDecode_encode (nbits v : Nat) (t : List Nat) :
    prefixIntDecode nbits (prefixIntEncode nbits v).1
      ((prefixIntEncode nbits v).2 ++ t) = some (v, t) := by
  unfold prefixIntEncode prefixIntDecode
  by_cases h : v < 2 ^ nbits - 1
  · simp [h]
  · rw [if_neg h]
    simp only [if_neg h, extDecode_extBytes (v - (2 ^ nbits - 1)) t]
    rw [if_neg (by omega)]
    simp only [Option.some.injEq, Prod.mk.injEq, and_true]
    omega

/-- The prefix bits always fit under the flag mask. -/
theorem prefixIntEncode_fst_lt (nbits v : Nat) :
    (prefixIntEncode nbits v).1 < 2 ^ nbits := by
  have h : (0:Nat) < 2 ^ nbits := by positivity
  unfold prefixIntEncode
  split
  next hlt => exact lt_of_lt_of_le hlt (by omega)
  next => show 2 ^ nbits - 1 < 2 ^ nbits; omega

/-- A header list: ordered (name, value) byte-string pairs. -/
abbrev Headers := List (List Nat × List Nat)

/-- One literal field line: `0x30`-based name byte with 3-bit length prefix,
name bytes, value byte with 7-bit length prefix, value bytes. -/
def headerFieldEncode (p : List Nat × List Nat) : List Nat :=
  (0x30 + (prefixIntEncode 3 p.1.length).1) :: (prefixIntEncode 3 p.1.length).2
    ++ p.1
    ++ (prefixIntEncode 7 p.2.length).1 :: (prefixIntEncode 7 p.2.length).2
    ++ p.2

/-- `qpack::Headers::encode`: two-byte zero prefix then the field lines. -/
def headersEncode (hs : Headers) : List Nat :=
  0 :: 0 :: hs.flatMap headerFieldEncode

/-- Parse a single literal field line: `0x30`-based name byte with 3-bit
length prefix, name bytes, 7-bit length-prefix value byte, value bytes.
Rejects unknown representation prefixes and non-UTF-8 field values. -/
def headerFieldDecode (l : List Nat) :
    Option ((List Nat × List Nat) × List Nat) :=
  match l with
  | [] => none
  | b :: r =>
    if 0x30 ≤ b ∧ b < 0x38 then
      match prefixIntDecode 3 (b - 0x30) r with
      | none => none
      | some (nlen, r1) =>
        if r1.length < nlen then none
        else
          match (r1.drop nlen).head? with
          | none => none
          | some b2 =>
            if b2 < 0x80 then
              match prefixIntDecode 7 b2 ((r1.drop nlen).tail) with
              | none => none
              | some (vlen, r3) =>
                if r3.length < vlen then none
                else if isUtf8 (r3.take vlen) then
                  some ((r1.take nlen, r3.take vlen), r3.drop vlen)
                else none
            else none
    else none

/-- The field-line loop of `qpack::Headers::decode`: parse literal lines
until the block is exhausted.  The zero-fuel branch is unreachable from
`headersDecode`. -/
def headerFieldsDecodeGo : Nat → List Nat → Option Headers
  | _, [] => some []
  | 0, _ :: _ => none
  | fuel + 1, b :: r =>
    match headerFieldDecode (b :: r) with
    | none => none
    | some (p, rest) =>
      match headerFieldsDecodeGo fuel rest with
      | some hs => some (p :: hs)
      | none => none

/-- `qpack::Headers::decode`: verify the two-byte zero prefix then parse
field lines. -/
def headersDecode (l : List Nat) : Option Headers :=
  match l with
  | 0 :: 0 :: rest => headerFieldsDecodeGo rest.length rest
  | _ => none

/-- `qpack::Headers::get`: first value bound to a name. -/
def headersGet (hs : Headers) (name : List Nat) : Option (List Nat) :=
  (hs.find? (fun p => p.1 == name)).map (·.2)

/-- ASCII string to byte list, for header names and values. -/
def asciiBytes (s : String) : List Nat := s.data.map Char.toNat

/-- Appending never shortens a list below its first part. -/
theorem not_append_length_lt (xs ys : List Nat) :
    ¬ ((xs ++ ys).length < xs.length) := by simp

/-- A single encoded field line parses back exactly, leaving the tail. -/
theorem headerFieldDecode_encode (p : List Nat × List Nat) (t : List Nat)
    (hutf : isUtf8 p.2) :
    headerFieldDecode (headerFieldEncode p ++ t) = some (p, t) := by
  have hnp := prefixIntEncode_fst_lt 3 p.1.length
  have hvp := prefixIntEncode_fst_lt 7 p.2.length
  have hc1 : 0x30 ≤ 0x30 + (prefixIntEncode 3 p.1.length).1 := by omega
  have hc2 : 0x30 + (prefixIntEncode 3 p.1.length).1 < 0x38 := by
    norm_num at hnp; omega
  have he : 0x30 + (prefixIntEncode 3 p.1.length).1 - 0x30
      = (prefixIntEncode 3 p.1.length).1 := by omega
  have hb2 : (prefixIntEncode 7 p.2.length).1 < 0x80 := by
    norm_num at hvp; omega
  rw [show headerFieldEncode p ++ t
      = (0x30 + (prefixIntEncode 3 p.1.length).1) ::
        ((prefixIntEncode 3 p.1.length).2
          ++ (p.1 ++ ((prefixIntEncode 7 p.2.length).1 ::
            ((prefixIntEncode 7 p.2.length).2 ++ (p.2 ++ t)))))
    by simp [headerFieldEncode]]
  simp only [headerFieldDecode, hc1, hc2, and_self, and_true, true_and,
    if_true, he, prefixIntDecode_encode, not_append_length_lt, if_false,
    List.take_left, List.drop_left, List.head?_cons, List.tail_cons, hb2,
    hutf, Prod.mk.eta]

theorem headerFieldsDecodeGo_encode :
    ∀ (hs : Headers) (fuel : Nat), (∀ p ∈ hs, isUtf8 p.2)
      → (hs.flatMap headerFieldEncode).length ≤ fuel
      → headerFieldsDecodeGo fuel (hs.flatMap headerFieldEncode) = some hs := by
  intro hs
  induction hs with
  | nil =>
    intro fuel _ _
    match fuel with
    | 0 => rfl
    | fuel + 1 => rfl
  | cons p hs ih =>
    intro fuel hutf hfuel
    have hne : 1 ≤ (headerFieldEncode p).length :=
      List.length_pos.mpr (by simp [headerFieldEncode])
    simp only [List.flatMap_cons] at hfuel ⊢
    simp only [List.length_append] at hfuel
    obtain ⟨fuel, rfl⟩ : ∃ f, fuel = f + 1 := ⟨fuel - 1, by omega⟩
    have hfield := headerFieldDecode_encode p
      (hs.flatMap headerFieldEncode) (hutf p (by simp))
    have hrest := ih fuel (fun q hq => hutf q (by simp [hq])) (by omega)
    rcases hfe : headerFieldEncode p with _ | ⟨b, bs⟩
    · rw [hfe] at hne; simp at hne
    · rw [hfe] at hfield
      simp only [List.cons_append] at hfield
      simp only [headerFieldsDecodeGo, List.append_eq, hfield, hrest]

/-- `headersDecode ∘ headersEncode = some` whenever every field value is
valid UTF-8. -/
theorem headersDecode_encode {hs : Headers} (h : ∀ p ∈ hs, isUtf8 p.2) :
    headersDecode (headersEncode hs) = some hs := by
  unfold headersEncode headersDecode
  exact headerFieldsDecodeGo_encode hs _ h (le_refl _)

/-! ## RFC 8941 structured fields

Modelled from the spec: the subprotocol headers are RFC 8941 Structured
Fields handled by the external `sfv` crate — a List of bare items for
`wt-available-protocols`, a single Item for `wt-protocol`.  The model
distinguishes String bare items from every other kind; item parameters are
not modelled (input carrying them fails to parse). -/

/-- A bare item of a structured-field list: a String, or anything else
(token, integer, decimal, boolean, byte sequence, inner list). -/
inductive SfvItem where
  | str (s : List Nat)
  | other
deriving DecidableEq

/-- sfv string characters: printable ASCII; quote and backslash appear only
escaped. -/
def sfvStringChar (c : Nat) : Bool := 0x20 ≤ c && c < 0x7F

/-- sfv token characters (after the initial ALPHA / `*`). -/
def sfvTokenChar (c : Nat) : Bool :=
  (0x30 ≤ c && c ≤ 0x39) || (0x41 ≤ c && c ≤ 0x5A) || (0x61 ≤ c && c ≤ 0x7A)
  || c == 0x21 || c == 0x23 || c == 0x24 || c == 0x25 || c == 0x26
  || c == 0x27 || c == 0x2A || c == 0x2B || c == 0x2D || c == 0x2E
  || c == 0x5E || c == 0x5F || c == 0x60 || c == 0x7C || c == 0x7E
  || c == 0x3A || c == 0x2F

/-- Parse the inside of a quoted string (the opening quote already
consumed): plain printable characters, `\"` and `\\` escapes, up to the
closing quote.  The zero-fuel branch on a nonempty list is unreachable when
the fuel dominates the length. -/
def parseStringGo : Nat → List Nat → Option (List Nat × List Nat)
  | _, [] => none
  | 0, _ :: _ => none
  | fuel + 1, c :: r =>
    if c = 0x22 then some ([], r)
    else if c = 0x5C then
      match r.head? with
      | none => none
      | some d =>
        if d = 0x22 ∨ d = 0x5C then
          match parseStringGo fuel r.tail with
          | some (s, rest) => some (d :: s, rest)
          | none => none
        else none
    else if 0x20 ≤ c ∧ c < 0x7F then
      match parseStringGo fuel r with
      | some (s, rest) => some (c :: s, rest)
      | none => none
    else none

/-- Parse one bare item.  Strings become `.str`; booleans, numbers and
tokens become `.other`; anything else fails. -/
def parseBareItem (l : List Nat) : Option (SfvItem × List Nat) :=
  match l.head? with
  | none => none
  | some c =>
    if c = 0x22 then
      match parseStringGo l.tail.length l.tail with
      | some (s, rest) => some (.str s, rest)
      | none => none
    else if c = 0x3F then
      match l.tail.head? with
      | some d =>
        if d = 0x30 ∨ d = 0x31 then some (.other, l.tail.tail) else none
      | none => none
    else if c = 0x2D ∨ (0x30 ≤ c ∧ c ≤ 0x39) then
      some (.other, l.tail.dropWhile
        (fun d => ((0x30 ≤ d && d ≤ 0x39) || d == 0x2E)))
    else if (0x41 ≤ c ∧ c ≤ 0x5A) ∨ (0x61 ≤ c ∧ c ≤ 0x7A) ∨ c = 0x2A then
      some (.other, l.dropWhile sfvTokenChar)
    else none

/-- The list-member loop: item, optional-whitespace, comma, … .  A `;`
(parameters) or any other stray byte fails the parse.  The zero-fuel branch
is unreachable from `sfvParseList`. -/
def parseListGo : Nat → List Nat → Option (List SfvItem)
  | 0, _ => none
  | fuel + 1, l =>
    match parseBareItem l with
    | none => none
    | some (it, rest) =>
      let rest2 := rest.dropWhile (fun c => c == 0x20 || c == 0x09)
      match rest2.head? with
      | none => some [it]
      | some c =>
        if c = 0x2C then
          let rest3 := rest2.tail.dropWhile (fun c => c == 0x20 || c == 0x09)
          if rest3 = [] then none
          else
            match parseListGo fuel rest3 with
            | some its => some (it :: its)
            | none => none
        else none

/-- `sfv::Parser::parse::<List>`: an empty field value is the empty list. -/
def sfvParseList (l : List Nat) : Option (List SfvItem) :=
  if l = [] then some [] else parseListGo (l.length + 1) l

/-- `sfv::Parser::parse::<Item>`: one bare item consuming the whole value. -/
def sfvParseItem (l : List Nat) : Option SfvItem :=
  match parseBareItem l with
  | some (it, rest) =>
    if rest.dropWhile (fun c => c == 0x20 || c == 0x09) = [] then some it
    else none
  | none => none

/-- `sfv::StringRef::from_str` validity: printable ASCII only. -/
def stringRefValid (s : List Nat) : Bool := s.all sfvStringChar

/-- Serialize one sfv String: quotes around the content, `"` and `\`
escaped. -/
def serializeString (s : List Nat) : List Nat :=
  0x22 :: (s.flatMap (fun c => if c = 0x22 ∨ c = 0x5C then [0x5C, c] else [c])
    ++ [0x22])

/-! ## Connect errors (connect.rs) -/

/-- `ConnectError` (connect.rs); I/O and QPACK error payloads are dropped. -/
inductive ConnectError where
  | unexpectedEnd
  | qpackError
  | unexpectedFrame (typ : Nat)
  | invalidMethod
  | invalidUrl
  | invalidStatus
  | wrongStatus (status : Option Nat)
  | wrongMethod (method : Option (List Nat))
  | wrongScheme (scheme : Option (List Nat))
  | wrongAuthority
  | wrongProtocol (protocol : Option (List Nat))
  | wrongPath
  | invalidProtocol
  | structuredFieldError
  | frameTooLarge
deriving DecidableEq

/-- `protocol_negotiation::decode_list` (connect.rs): a parse failure is the
sfv error (`StructuredFieldError` via `From`); any non-String member is
`InvalidProtocol`. -/
def protocolDecodeList (value : List Nat) :
    Except ConnectError (List (List Nat)) :=
  match sfvParseList value with
  | none => .error .structuredFieldError
  | some items =>
    items.mapM (fun it =>
      match it with
      | .str s => Except.ok s
      | .other => Except.error ConnectError.invalidProtocol)

/-- `protocol_negotiation::decode_item` (connect.rs). -/
def protocolDecodeItem (value : List Nat) : Except ConnectError (List Nat) :=
  match sfvParseItem value with
  | none => .error .structuredFieldError
  | some (.str s) => .ok s
  | some .other => .error .invalidProtocol

/-- `protocol_negotiation::encode_list` (connect.rs): an invalid string is
the sfv error (`StructuredFieldError` via `From`); the serializer yields
nothing for an empty list, which is `InvalidProtocol`. -/
def protocolEncodeList (ps : List (List Nat)) :
    Except ConnectError (List Nat) := do
  let strs ← ps.mapM (fun p =>
    if stringRefValid p then Except.ok (serializeString p)
    else Except.error ConnectError.structuredFieldError)
  match strs with
  | [] => .error .invalidProtocol
  | s :: rest => .ok (rest.foldl (fun acc x => acc ++ 0x2C :: 0x20 :: x) s)

/-- `protocol_negotiation::encode_item` (connect.rs). -/
def protocolEncodeItem (p : List Nat) : Except ConnectError (List Nat) :=
  if stringRefValid p then .ok (serializeString p)
  else .error .structuredFieldError

/-! ## HTTP method and status

Modelled from the spec / the external `http` crate: a method parses iff it
is a nonempty ASCII token; a status parses iff it is exactly three digits
with value at least 100. -/

def methodParse (s : List Nat) : Option (List Nat) :=
  if s ≠ [] ∧ s.all sfvTokenChar then some s else none

def statusParse (s : List Nat) : Option Nat :=
  match s with
  | [a, b, c] =>
    if (0x30 ≤ a && a ≤ 0x39) && (0x30 ≤ b && b ≤ 0x39)
        && (0x30 ≤ c && c ≤ 0x39) then
      let v := (a - 0x30) * 100 + (b - 0x30) * 10 + (c - 0x30)
      if 100 ≤ v then some v else none
    else none
  | _ => none

/-- `StatusCode::is_success`: 2xx. -/
def statusIsSuccess (v : Nat) : Bool := 200 ≤ v && v < 300

/-- `StatusCode::as_str` for a three-digit status. -/
def statusBytes (v : Nat) : List Nat :=
  [0x30 + v / 100, 0x30 + v / 10 % 10, 0x30 + v % 10]

/-! ## URL

Modelled from the spec: the CONNECT URL is rebuilt by simple concatenation
`https://{authority}{path_and_query}` and parsed (the external `url`
crate).  The model parser splits the authority at the first `/` or `?` and
the path at the first `?`, normalizing an empty path to `/`. -/

structure Url where
  scheme : List Nat
  authority : List Nat
  path : List Nat
  query : Option (List Nat)
deriving DecidableEq

/-- `url.path()` plus `?query` when present (`ConnectRequest::encode`). -/
def Url.pathAndQuery (u : Url) : List Nat :=
  match u.query with
  | some q => u.path ++ 0x3F :: q
  | none => u.path

def urlParse (s : List Nat) : Option Url :=
  if s.take 8 = asciiBytes "https://" then
    let rest := s.drop 8
    let auth := rest.takeWhile (fun c => !(c == 0x2F) && !(c == 0x3F))
    let pq := rest.drop auth.length
    if auth = [] then none
    else
      let path0 := pq.takeWhile (fun c => !(c == 0x3F))
      let path := if path0 = [] then [0x2F] else path0
      match pq.drop path0.length with
      | [] => some ⟨asciiBytes "https", auth, path, none⟩
      | _ :: q => some ⟨asciiBytes "https", auth, path, some q⟩
  else none

/-- Printable ASCII, the well-formedness alphabet for URL components. -/
def urlChar (c : Nat) : Bool := 0x21 ≤ c && c < 0x7F

/-- Well-formed https URLs: the domain on which concatenation and reparsing
are inverse. -/
def Url.wf (u : Url) : Prop :=
  u.scheme = asciiBytes "https"
  ∧ u.authority ≠ []
  ∧ u.authority.all (fun c => urlChar c && !(c == 0x2F) && !(c == 0x3F))
      = true
  ∧ u.path.head? = some 0x2F
  ∧ u.path.all (fun c => urlChar c && !(c == 0x3F)) = true
  ∧ (u.query.getD []).all urlChar = true

/-! ## CONNECT request and response (connect.rs) -/

/-- `protocol_negotiation::AVAILABLE_NAME`. -/
def availableName : List Nat := asciiBytes "wt-available-protocols"

/-- `protocol_negotiation::SELECTED_NAME`. -/
def selectedName : List Nat := asciiBytes "wt-protocol"

/-- `ConnectRequest` (connect.rs). -/
structure ConnectRequest where
  url : Url
  protocols : List (List Nat)
deriving DecidableEq

/-- The header list built by `ConnectRequest::encode` (connect.rs), before
QPACK encoding. -/
def ConnectRequest.headerList (req : ConnectRequest) :
    Except ConnectError Headers := do
  let base : Headers :=
    [(asciiBytes ":method", asciiBytes "CONNECT"),
     (asciiBytes ":scheme", req.url.scheme),
     (asciiBytes ":authority", req.url.authority),
     (asciiBytes ":path", req.url.pathAndQuery),
     (asciiBytes ":protocol", asciiBytes "webtransport")]
  if req.protocols.isEmpty then pure base
  else do
    let enc ← protocolEncodeList req.protocols
    pure (base ++ [(availableName, enc)])

/-- `ConnectRequest::encode` (connect.rs): a HEADERS frame around the QPACK
block. -/
def ConnectRequest.encode (req : ConnectRequest) :
    Except ConnectError (List Nat) := do
  let hs ← req.headerList
  let tmp := headersEncode hs
  pure (VarInt.encode Frame.HEADERS ++ VarInt.encode tmp.length ++ tmp)

/-- The header-validation part of `ConnectRequest::decode_headers`
(connect.rs), applied to the decoded header list; checks run in source
order: scheme, authority, path, method, protocol, subprotocols, URL. -/
def ConnectRequest.decodeHeaderList (hs : Headers) :
    Except ConnectError ConnectRequest := do
  let _ ← match headersGet hs (asciiBytes ":scheme") with
    | some s =>
      if s = asciiBytes "https" then Except.ok ()
      else Except.error (ConnectError.wrongScheme (some s))
    | none => Except.error (ConnectError.wrongScheme none)
  let authority ← match headersGet hs (asciiBytes ":authority") with
    | some a => Except.ok a
    | none => Except.error ConnectError.wrongAuthority
  let pathAndQuery ← match headersGet hs (asciiBytes ":path") with
    | some p => Except.ok p
    | none => Except.error ConnectError.wrongPath
  let _ ← match headersGet hs (asciiBytes ":method") with
    | some mstr =>
      match methodParse mstr with
      | none => Except.error ConnectError.invalidMethod
      | some tok =>
        if tok = asciiBytes "CONNECT" then Except.ok ()
        else Except.error (ConnectError.wrongMethod (some tok))
    | none => Except.error (ConnectError.wrongMethod none)
  let protocol := headersGet hs (asciiBytes ":protocol")
  let _ ← if protocol = some (asciiBytes "webtransport") then Except.ok ()
    else Except.error (ConnectError.wrongProtocol protocol)
  let protocols ← match headersGet hs availableName with
    | some v =>
      match protocolDecodeList v with
      | .ok ps => Except.ok ps
      | .error _ => Except.error ConnectError.invalidProtocol
    | none => Except.ok []
  let url ← match urlParse (asciiBytes "https://" ++ authority
      ++ pathAndQuery) with
    | some u => Except.ok u
    | none => Except.error ConnectError.invalidUrl
  pure ⟨url, protocols⟩

/-- `ConnectRequest::decode_headers` (connect.rs): QPACK-decode then
validate. -/
def ConnectRequest.decodeHeaders (data : List Nat) :
    Except ConnectError ConnectRequest :=
  match headersDecode data with
  | none => .error .qpackError
  | some hs => ConnectRequest.decodeHeaderList hs

/-- `read_headers_frame` (connect.rs): skip GREASE frames, reject oversized
frames, require a HEADERS frame, return its payload and the unread
remainder.  The zero-fuel branch is unreachable from the wrapper. -/
def readHeadersFrameGo : Nat → List Nat →
    Except ConnectError (List Nat × List Nat)
  | 0, _ => .error .unexpectedEnd
  | fuel + 1, l =>
    match VarInt.decode l with
    | none => .error .unexpectedEnd
    | some (typ, r1) =>
      match VarInt.decode r1 with
      | none => .error .unexpectedEnd
      | some (size, r2) =>
        if maxFrameSize < size then .error .frameTooLarge
        else if settingIsGrease typ then
          if r2.length < size then .error .unexpectedEnd
          else readHeadersFrameGo fuel (r2.drop size)
        else
          if r2.length < size then .error .unexpectedEnd
          else if typ ≠ Frame.HEADERS then .error (.unexpectedFrame typ)
          else .ok (r2.take size, r2.drop size)

/-- `read_headers_frame` at its natural fuel. -/
def readHeadersFrame (l : List Nat) :
    Except ConnectError (List Nat × List Nat) :=
  readHeadersFrameGo (l.length + 1) l

/-- `ConnectRequest::read` (connect.rs): consume exactly the HEADERS frame,
returning the request and the unread remainder. -/
def ConnectRequest.read (l : List Nat) :
    Except ConnectError (ConnectRequest × List Nat) := do
  let (buf, rest) ← readHeadersFrame l
  let req ← ConnectRequest.decodeHeaders buf
  pure (req, rest)

/-- `ConnectResponse` (connect.rs). -/
structure ConnectResponse where
  status : Nat
  protocol : Option (List Nat)
deriving DecidableEq

/-- The header list built by `ConnectResponse::encode` (connect.rs). -/
def ConnectResponse.headerList (resp : ConnectResponse) :
    Except ConnectError Headers := do
  let base : Headers :=
    [(asciiBytes ":status", statusBytes resp.status),
     (asciiBytes "sec-webtransport-http3-draft", asciiBytes "draft02")]
  match resp.protocol with
  | none => pure base
  | some p => do
    let enc ← protocolEncodeItem p
    pure (base ++ [(selectedName, enc)])

/-- `ConnectResponse::encode` (connect.rs). -/
def ConnectResponse.encode (resp : ConnectResponse) :
    Except ConnectError (List Nat) := do
  let hs ← resp.headerList
  let tmp := headersEncode hs
  pure (VarInt.encode Frame.HEADERS ++ VarInt.encode tmp.length ++ tmp)

/-- The header-validation part of `ConnectResponse::decode_headers`
(connect.rs): the status must parse and be 2xx, then the selected protocol
is decoded. -/
def ConnectResponse.decodeHeaderList (hs : Headers) :
    Except ConnectError ConnectResponse := do
  let status ← match headersGet hs (asciiBytes ":status") with
    | some s =>
      match statusParse s with
      | none => Except.error ConnectError.invalidStatus
      | some v =>
        if statusIsSuccess v then Except.ok v
        else Except.error (ConnectError.wrongStatus (some v))
    | none => Except.error (ConnectError.wrongStatus none)
  let protocol ← match headersGet hs selectedName with
    | some v =>
      match protocolDecodeItem v with
      | .ok p => Except.ok (some p)
      | .error _ => Except.error ConnectError.invalidProtocol
    | none => Except.ok none
  pure ⟨status, protocol⟩

/-- `ConnectResponse::decode_headers` (connect.rs). -/
def ConnectResponse.decodeHeaders (data : List Nat) :
    Except ConnectError ConnectResponse :=
  match headersDecode data with
  | none => .error .qpackError
  | some hs => ConnectResponse.decodeHeaderList hs

/-- `ConnectResponse::read` (connect.rs). -/
def ConnectResponse.read (l : List Nat) :
    Except ConnectError (ConnectResponse × List Nat) := do
  let (buf, rest) ← readHeadersFrame l
  let resp ← ConnectResponse.decodeHeaders buf
  pure (resp, rest)

/-- The CONNECT request header list shape produced by `ConnectRequest::encode`
for an https URL, with the `:method` value, authority and path-and-query as
parameters. -/
def reqHeaders (m a pq : List Nat) : Headers :=
  [(asciiBytes ":method", m),
   (asciiBytes ":scheme", asciiBytes "https"),
   (asciiBytes ":authority", a),
   (asciiBytes ":path", pq),
   (asciiBytes ":protocol", asciiBytes "webtransport")]

/-- The CONNECT response header list shape produced by
`ConnectResponse::encode`, with the `:status` value as a parameter. -/
def respBaseHeaders (s : List Nat) : Headers :=
  [(asciiBytes ":status", s),
   (asciiBytes "sec-webtransport-http3-draft", asciiBytes "draft02")]

/-- The `:method` validation step of `ConnectRequest::decode_headers`,
isolated. -/
def methodCheckOf (m : List Nat) : Except ConnectError Unit :=
  match methodParse m with
  | none => Except.error ConnectError.invalidMethod
  | some tok =>
    if tok = asciiBytes "CONNECT" then Except.ok ()
    else Except.error (ConnectError.wrongMethod (some tok))

/-- The subprotocol-list step of `ConnectRequest::decode_headers`,
isolated. -/
def protocolsCheckOf (v : List Nat) : Except ConnectError (List (List Nat)) :=
  match protocolDecodeList v with
  | .ok ps => Except.ok ps
  | .error _ => Except.error ConnectError.invalidProtocol

/-- The URL reconstruction step of `ConnectRequest::decode_headers`,
isolated. -/
def urlCheckOf (l : List Nat) : Except ConnectError Url :=
  match urlParse l with
  | some u => Except.ok u
  | none => Except.error ConnectError.invalidUrl

/-- The `:status` validation step of `ConnectResponse::decode_headers`,
isolated. -/
def statusCheckOf (s : List Nat) : Except ConnectError Nat :=
  match statusParse s with
  | none => Except.error ConnectError.invalidStatus
  | some v =>
    if statusIsSuccess v then Except.ok v
    else Except.error (ConnectError.wrongStatus (some v))

/-- The selected-protocol step of `ConnectResponse::decode_headers`,
isolated. -/
def protoItemCheckOf (w : List Nat) : Except ConnectError (Option (List Nat)) :=
  match protocolDecodeItem w with
  | .ok p => Except.ok (some p)
  | .error _ => Except.error ConnectError.invalidProtocol

/-- Valid CONNECT headers carrying a `wt-available-protocols` value `v`. -/
def c4Headers (v : List Nat) : Headers :=
  reqHeaders (asciiBytes "CONNECT") (asciiBytes "example.com") (asciiBytes "/")
    ++ [(availableName, v)]

/-- Valid CONNECT headers with the `:method` value as a parameter. -/
def c9ReqHeaders (m : List Nat) : Headers :=
  reqHeaders m (asciiBytes "example.com") (asciiBytes "/")

/-- A small well-formed https URL. -/
def c5Url : Url := ⟨asciiBytes "https", asciiBytes "h", [0x2F], none⟩

/-- The encoded CONNECT request frame for `c5Url` with no subprotocols. -/
def c5ReqFrame : List Nat :=
  VarInt.encode Frame.HEADERS
    ++ VarInt.encode (headersEncode (reqHeaders (asciiBytes "CONNECT")
        (asciiBytes "h") [0x2F])).length
    ++ headersEncode (reqHeaders (asciiBytes "CONNECT") (asciiBytes "h") [0x2F])

/-- The encoded CONNECT response frame for status 200 with no protocol. -/
def c5RespFrame : List Nat :=
  VarInt.encode Frame.HEADERS
    ++ VarInt.encode (headersEncode (respBaseHeaders (statusBytes 200))).length
    ++ headersEncode (respBaseHeaders (statusBytes 200))

/-! ## Stream accept dispatch (web-transport-quiche/src/connection.rs) -/

/-- `SessionError` (session-level); only the `Unknown` variant is reachable
in the embedded fragment. -/
inductive SessionError where
  | unknown
deriving DecidableEq

/-- `SessionAccept::decode_uni` (connection.rs): read the stream-type
VarInt; for `WEBTRANSPORT` also read and validate the session id.  Returns
the type and the stream positioned after the header. -/
def SessionAccept.decodeUni (expected : Nat) (l : List Nat) :
    Except SessionError (Nat × List Nat) :=
  match VarInt.decode l with
  | none => .error .unknown
  | some (typ, r) =>
    if typ = StreamUni.WEBTRANSPORT then
      match VarInt.decode r with
      | none => .error .unknown
      | some (sid, r2) =>
        if sid ≠ expected then .error .unknown
        else .ok (typ, r2)
    else .ok (typ, r)

/-- The QPACK-stream retention fields of `SessionAccept` (connection.rs). -/
structure AcceptState where
  qpackEncoder : Option (List Nat)
  qpackDecoder : Option (List Nat)
deriving DecidableEq

/-- The result-dispatch loop of `SessionAccept::poll_accept_uni`
(connection.rs), over the completed header-decode results in completion
order: errors are skipped (the loop continues), `WEBTRANSPORT` streams are
surfaced, QPACK streams are retained, unknown types are dropped.  `none`
models `Poll::Pending`. -/
def pollAcceptUni :
    List (Except SessionError (Nat × List Nat)) → AcceptState →
      Option (List Nat) × AcceptState
  | [], st => (none, st)
  | r :: rest, st =>
    match r with
    | .error _ => pollAcceptUni rest st
    | .ok (typ, recv) =>
      if typ = StreamUni.WEBTRANSPORT then (some recv, st)
      else if typ = StreamUni.QPACK_DECODER then
        pollAcceptUni rest { st with qpackDecoder := some recv }
      else if typ = StreamUni.QPACK_ENCODER then
        pollAcceptUni rest { st with qpackEncoder := some recv }
      else pollAcceptUni rest st

/-! ## Stream drop policy (web-transport-quiche/src/ez) -/

/-- `StreamError` (ez). -/
inductive StreamError where
  | reset (code : Nat)
  | stop (code : Nat)
  | closed
deriving DecidableEq

/-- The termination-relevant fields of `SendState` (ez/send.rs): `fin` is
set by `finish()`, `reset` by `reset()` or drop, `stop` when a peer
STOP_SENDING arrives. -/
structure SendState where
  fin : Bool
  reset : Option Nat
  stop : Option Nat
  queued : List (List Nat)
deriving DecidableEq

/-- The reserved send-dropped code (`DROP_CODE`, ez/send.rs): "send". -/
def sendDropCode : Nat := 0x73656E64

/-- `impl Drop for SendStream` (ez/send.rs): record a reset with the
reserved code unless the stream has finished, been reset, or been stopped. -/
def SendState.onDrop (s : SendState) : SendState :=
  if s.fin = false ∧ s.reset = none ∧ s.stop = none then
    { s with reset := some sendDropCode }
  else s

/-- `SendStream::finish` (ez/send.rs). -/
def SendState.finish (s : SendState) : Except StreamError SendState :=
  match s.reset with
  | some c => .error (.reset c)
  | none =>
    match s.stop with
    | some c => .error (.stop c)
    | none =>
      if s.fin then .error .closed
      else .ok { s with fin := true }

/-- `SendStream::reset` (ez/send.rs). -/
def SendState.resetOp (s : SendState) (code : Nat) : SendState :=
  { s with reset := some code }

/-- The control-frame effect of `SendState::flush` (ez/send.rs): a pending
reset sends RESET_STREAM with its code; otherwise, once the queue is
drained, a pending `fin` sends FIN; data transmission is abstracted away. -/
inductive SendFlushEffect where
  | resetStream (code : Nat)
  | finSent
  | nothing
deriving DecidableEq

def SendState.flushEffect (s : SendState) : SendFlushEffect :=
  match s.reset with
  | some code => .resetStream code
  | none =>
    if s.stop.isSome then .nothing
    else if s.queued.isEmpty ∧ s.fin then .finSent
    else .nothing

/-- The termination-relevant fields of `RecvState` (ez/recv.rs): `fin` set
when a FIN is received, `reset` when a RESET_STREAM is received, `stop`
when `stop()` is called. -/
structure RecvState where
  fin : Bool
  reset : Option Nat
  stop : Option Nat
deriving DecidableEq

/-- The reserved recv-dropped code (`DROP_CODE`, ez/recv.rs):
"ecvddrop". -/
def recvDropCode : Nat := 0x6563766464726F70

/-- `impl Drop for RecvStream` (ez/recv.rs): record a STOP_SENDING with the
reserved code unless a FIN or RESET_STREAM was received or `stop()` was
called. -/
def RecvState.onDrop (s : RecvState) : RecvState :=
  if s.fin = false ∧ s.reset = none ∧ s.stop = none then
    { s with stop := some recvDropCode }
  else s

/-- `RecvStream::stop` (ez/recv.rs). -/
def RecvState.stopOp (s : RecvState) (code : Nat) : RecvState :=
  { s with stop := some code }

/-- The control-frame effect of `RecvState::flush` (ez/recv.rs): nothing
after a received reset; otherwise a pending `stop` sends STOP_SENDING with
its code. -/
inductive RecvFlushEffect where
  | stopSending (code : Nat)
  | nothing
deriving DecidableEq

def RecvState.flushEffect (s : RecvState) : RecvFlushEffect :=
  if s.reset.isSome then .nothing
  else
    match s.stop with
    | some code => .stopSending code
    | none => .nothing

/-! ## Capsule round-trip lemmas -/

theorem capsuleGrease_formula (num : Nat) :
    capsuleGrease (0x29 * num + 0x17) = some num := by
  unfold capsuleGrease
  rw [if_neg (by omega)]
  have h : (0x29 * num + 0x17 - 0x17) / 0x29 = num := by
    rw [Nat.add_sub_cancel, Nat.mul_div_cancel_left _ (by norm_num)]
  simp [h]

/-- The encodable domain of `Capsule`: close codes fit in a u32 and reasons
are UTF-8 of length at most 1020; grease types fit in a VarInt; unknown
types are VarInt-encodable, neither GREASE nor CLOSE, with payloads of at
most 1024 bytes. -/
def Capsule.wf : Capsule → Prop
  | .close code reason =>
    code < 2 ^ 32 ∧ reason.length ≤ 1020 ∧ isUtf8 reason = true
  | .grease num => 0x29 * num + 0x17 < 2 ^ 62
  | .unknown typ payload =>
    typ < 2 ^ 62 ∧ capsuleGrease typ = none ∧ typ ≠ closeSessionType
      ∧ payload.length ≤ 1024

theorem Capsule.decode_encode_wf (c : Capsule) (t : List Nat) (h : c.wf) :
    Capsule.decode (c.encode ++ t) = .ok (c, t) := by
  match c with
  | .close code reason =>
    obtain ⟨hcode, hlen, hutf⟩ := h
    rw [show Capsule.encode (.close code reason) ++ t
        = VarInt.encode closeSessionType
          ++ (VarInt.encode (4 + reason.length)
            ++ ((toBytesBE 4 code ++ reason) ++ t))
      by simp [Capsule.encode]]
    have h1 := VarInt.decode_encode closeSessionType (by decide)
      (VarInt.encode (4 + reason.length) ++ ((toBytesBE 4 code ++ reason) ++ t))
    have h2 := VarInt.decode_encode (4 + reason.length) (by omega)
      ((toBytesBE 4 code ++ reason) ++ t)
    have hpl : (toBytesBE 4 code ++ reason).length = 4 + reason.length := by
      simp [length_toBytesBE]
    have hno1 : ¬ (maxMessageSize < 4 + reason.length) := by
      unfold maxMessageSize; omega
    have hno2 : ¬ (((toBytesBE 4 code ++ reason) ++ t).length
        < 4 + reason.length) := by
      simp only [List.length_append, hpl]; omega
    have htake : (((toBytesBE 4 code ++ reason) ++ t)).take (4 + reason.length)
        = toBytesBE 4 code ++ reason := List.take_left' hpl
    have hdrop : (((toBytesBE 4 code ++ reason) ++ t)).drop (4 + reason.length)
        = t := List.drop_left' hpl
    have hg : capsuleGrease closeSessionType = none := by decide
    have hno3 : ¬ ((toBytesBE 4 code ++ reason).length < 4) := by
      simp only [hpl]; omega
    have htake4 : (toBytesBE 4 code ++ reason).take 4 = toBytesBE 4 code :=
      List.take_left' (length_toBytesBE 4 code)
    have hdrop4 : (toBytesBE 4 code ++ reason).drop 4 = reason :=
      List.drop_left' (length_toBytesBE 4 code)
    have hno4 : ¬ (maxMessageSize < reason.length) := by
      unfold maxMessageSize; omega
    have hfrom : fromBytesBE (toBytesBE 4 code) = code :=
      fromBytesBE_toBytesBE (by norm_num at hcode ⊢; omega)
    simp only [Capsule.decode, h1, h2, hno1, if_false, hno2, hg, htake,
      hdrop, if_pos rfl, hno3, htake4, hdrop4, hno4, hfrom, hutf, if_true]
  | .grease num =>
    rw [show Capsule.encode (.grease num) ++ t
        = VarInt.encode (0x29 * num + 0x17) ++ (VarInt.encode 0 ++ t)
      by simp [Capsule.encode]]
    have h1 := VarInt.decode_encode (0x29 * num + 0x17) h
      (VarInt.encode 0 ++ t)
    have h2 := VarInt.decode_encode 0 (by norm_num) t
    have hno1 : ¬ (maxMessageSize < 0) := by omega
    have hno2 : ¬ (t.length < 0) := by omega
    simp only [Capsule.decode, h1, h2, hno1, if_false, hno2,
      capsuleGrease_formula, List.take_zero, List.drop_zero]
  | .unknown typ payload =>
    obtain ⟨htyp, hgrease, hclose, hlen⟩ := h
    rw [show Capsule.encode (.unknown typ payload) ++ t
        = VarInt.encode typ
          ++ (VarInt.encode payload.length ++ (payload ++ t))
      by simp [Capsule.encode]]
    have h1 := VarInt.decode_encode typ htyp
      (VarInt.encode payload.length ++ (payload ++ t))
    have h2 := VarInt.decode_encode payload.length
      (by omega) (payload ++ t)
    have hno1 : ¬ (maxMessageSize < payload.length) := by
      unfold maxMessageSize; omega
    have hno2 : ¬ ((payload ++ t).length < payload.length) := by
      simp
    have htake : (payload ++ t).take payload.length = payload :=
      List.take_left' rfl
    have hdrop : (payload ++ t).drop payload.length = t :=
      List.drop_left' rfl
    simp only [Capsule.decode, h1, h2, hno1, if_false, hno2, hgrease,
      htake, hdrop]
    rw [if_neg hclose]

theorem Capsule.read_encode_wf (c : Capsule) (t : List Nat) (h : c.wf) :
    Capsule.read (c.encode ++ t) = .ok (some c, t) := by
  match c with
  | .close code reason =>
    obtain ⟨hcode, hlen, hutf⟩ := h
    rw [show Capsule.encode (.close code reason) ++ t
        = VarInt.encode closeSessionType
          ++ (VarInt.encode (4 + reason.length)
            ++ ((toBytesBE 4 code ++ reason) ++ t))
      by simp [Capsule.encode]]
    have h1 := VarInt.decode_encode closeSessionType (by decide)
      (VarInt.encode (4 + reason.length) ++ ((toBytesBE 4 code ++ reason) ++ t))
    have h2 := VarInt.decode_encode (4 + reason.length) (by omega)
      ((toBytesBE 4 code ++ reason) ++ t)
    have hpl : (toBytesBE 4 code ++ reason).length = 4 + reason.length := by
      simp [length_toBytesBE]
    have hno1 : ¬ (maxMessageSize < 4 + reason.length) := by
      unfold maxMessageSize; omega
    have hg : capsuleGrease closeSessionType = none := by decide
    have hno2 : ¬ (((toBytesBE 4 code ++ reason) ++ t).length
        < 4 + reason.length) := by
      simp only [List.length_append, hpl]; omega
    have htake : (((toBytesBE 4 code ++ reason) ++ t)).take (4 + reason.length)
        = toBytesBE 4 code ++ reason := List.take_left' hpl
    have hdrop : (((toBytesBE 4 code ++ reason) ++ t)).drop (4 + reason.length)
        = t := List.drop_left' hpl
    have hno3 : ¬ ((((toBytesBE 4 code ++ reason) ++ t)).take
        (4 + reason.length)).length < 4 := by
      rw [htake, hpl]; omega
    have hno3a : ¬ ((toBytesBE 4 code ++ reason).length < 4) := by
      rw [hpl]; omega
    have htake4 : (toBytesBE 4 code ++ reason).take 4 = toBytesBE 4 code :=
      List.take_left' (length_toBytesBE 4 code)
    have hdrop4 : (toBytesBE 4 code ++ reason).drop 4 = reason :=
      List.drop_left' (length_toBytesBE 4 code)
    have hfrom : fromBytesBE (toBytesBE 4 code) = code :=
      fromBytesBE_toBytesBE (by norm_num at hcode ⊢; omega)
    simp only [Capsule.read, h1, h2, hno1, if_false, hg, hno2, htake, hdrop,
      if_pos rfl, hno3, hno3a, htake4, hdrop4, hfrom, hutf, if_true]
  | .grease num =>
    rw [show Capsule.encode (.grease num) ++ t
        = VarInt.encode (0x29 * num + 0x17) ++ (VarInt.encode 0 ++ t)
      by simp [Capsule.encode]]
    have h1 := VarInt.decode_encode (0x29 * num + 0x17) h
      (VarInt.encode 0 ++ t)
    have h2 := VarInt.decode_encode 0 (by norm_num) t
    have hno1 : ¬ (maxMessageSize < 0) := by omega
    have hno2 : ¬ (t.length < 0) := by omega
    simp only [Capsule.read, h1, h2, hno1, if_false, hno2,
      capsuleGrease_formula, List.drop_zero]
  | .unknown typ payload =>
    obtain ⟨htyp, hgrease, hclose, hlen⟩ := h
    rw [show Capsule.encode (.unknown typ payload) ++ t
        = VarInt.encode typ
          ++ (VarInt.encode payload.length ++ (payload ++ t))
      by simp [Capsule.encode]]
    have h1 := VarInt.decode_encode typ htyp
      (VarInt.encode payload.length ++ (payload ++ t))
    have h2 := VarInt.decode_encode payload.length
      (by omega) (payload ++ t)
    have hno1 : ¬ (maxMessageSize < payload.length) := by
      unfold maxMessageSize; omega
    have hno2 : ¬ ((payload ++ t).length < payload.length) := by simp
    have htake : (payload ++ t).take payload.length = payload :=
      List.take_left' rfl
    have hdrop : (payload ++ t).drop payload.length = t :=
      List.drop_left' rfl
    simp only [Capsule.read, h1, h2, hno1, if_false, hno2, hgrease, htake,
      hdrop]
    rw [if_neg hclose]

/-! ## Claim C3 -/

/-- C3 (amended): for every well-formed capsule (type not GREASE and not
CLOSE for `Unknown`, payload within bounds, u32 close code, UTF-8 reason of
at most 1020 bytes), `decode ∘ encode` is the identity and consumes all
bytes; encoding `CloseWebTransportSession{420, "test"}` yields exactly
`68 43 08 00 00 01 a4 74 65 73 74`, and decoding those bytes returns the
same value. -/
theorem C3_capsule_roundtrip (c : Capsule) (h : c.wf) :
    Capsule.decode (Capsule.encode c) = .ok (c, [])
    ∧ Capsule.encode (.close 420 (asciiBytes "test"))
      = [0x68, 0x43, 0x08, 0x00, 0x00, 0x01, 0xa4, 0x74, 0x65, 0x73, 0x74]
    ∧ Capsule.decode
        [0x68, 0x43, 0x08, 0x00, 0x00, 0x01, 0xa4, 0x74, 0x65, 0x73, 0x74]
      = .ok (.close 420 (asciiBytes "test"), []) := by
  refine ⟨?_, rfl, rfl⟩
  simpa using Capsule.decode_encode_wf c [] h

/-- C3 counterexample: the claim quantifies over all `Unknown{typ,payload}`,
but an `Unknown` whose type is a GREASE value decodes as `Grease`, not as
itself. -/
theorem C3_grease_unknown_counterexample :
    Capsule.decode (Capsule.encode (.unknown 0x17 [])) = .ok (.grease 0, [])
    ∧ Capsule.unknown 0x17 [] ≠ Capsule.grease 0 :=
  ⟨rfl, by decide⟩

/-- C3 witness: the round trip evaluated at the concrete close capsule. -/
theorem C3_roundtrip_witness :
    Capsule.decode (Capsule.encode (.close 420 (asciiBytes "test")))
      = .ok (.close 420 (asciiBytes "test"), []) :=
  (C3_capsule_roundtrip (.close 420 (asciiBytes "test"))
    ⟨by decide, by decide, by decide⟩).1

/-! ## Claim C6 -/

/-- `Capsule.read` never yields `Ok(None)` once the first VarInt decoded. -/
theorem Capsule.read_not_none {l r1 rest : List Nat} {typ : Nat}
    (hdec : VarInt.decode l = some (typ, r1)) :
    Capsule.read l ≠ .ok (none, rest) := by
  intro hr
  simp only [Capsule.read, hdec] at hr
  rcases h2 : VarInt.decode r1 with _ | ⟨len, r2⟩
  all_goals simp only [h2] at hr
  · cases hr
  · split at hr
    · cases hr
    · rcases hg : capsuleGrease typ with _ | num
      all_goals simp only [hg] at hr
      · split at hr
        · cases hr
        · split at hr
          · split at hr
            · cases hr
            · split at hr
              · cases hr
              · cases hr
          · cases hr
      · split at hr
        · cases hr
        · cases hr

/-- C6 (amended): `Capsule::read` returns `Ok(None)` exactly when the first
(type) VarInt is incomplete — clean EOF before the first byte, or EOF in
the middle of the type VarInt.  EOF in the length VarInt or in the payload
is an `UnexpectedEnd` error. -/
theorem C6_read_eof_policy (l : List Nat) :
    ((∃ rest, Capsule.read l = .ok (none, rest)) ↔ VarInt.decode l = none)
    ∧ Capsule.read [] = .ok (none, [])
    ∧ (∀ typ r1, VarInt.decode l = some (typ, r1) → VarInt.decode r1 = none →
        Capsule.read l = .error .unexpectedEnd)
    ∧ (∀ typ r1 len r2, VarInt.decode l = some (typ, r1) →
        VarInt.decode r1 = some (len, r2) → len ≤ maxMessageSize →
        r2.length < len → Capsule.read l = .error .unexpectedEnd) := by
  refine ⟨⟨?_, ?_⟩, rfl, ?_, ?_⟩
  · rintro ⟨rest, hr⟩
    rcases hdec : VarInt.decode l with _ | ⟨typ, r1⟩
    · rfl
    · exact absurd hr (Capsule.read_not_none hdec)
  · intro hdec
    exact ⟨l, by simp only [Capsule.read, hdec]⟩
  · intro typ r1 h1 h2
    simp only [Capsule.read, h1, h2]
  · intro typ r1 len r2 h1 h2 hlen hshort
    simp only [Capsule.read, h1, h2, if_neg (not_lt.mpr hlen)]
    rcases hg : capsuleGrease typ with _ | num
    all_goals simp only [hg, if_pos hshort]

/-- C6 counterexample: the bytes `[0x68]` are a truncated two-byte type
VarInt — EOF strikes after the first byte, mid type VarInt — yet `read`
returns `Ok(None)` rather than an error. -/
theorem C6_mid_varint_counterexample :
    Capsule.read [0x68] = .ok (none, [0x68])
    ∧ [0x68] ≠ ([] : List Nat) :=
  ⟨rfl, by decide⟩

/-- C6 witness: the amended characterization evaluated at a stream that
ends inside the length VarInt. -/
theorem C6_read_eof_witness :
    Capsule.read [0x17, 0x43] = .error .unexpectedEnd :=
  (C6_read_eof_policy [0x17, 0x43]).2.2.1 0x17 [0x43] (by decide) (by decide)

/-! ## Claim C7 -/

/-- C7: dropping a `SendStream` that was neither finished, reset, nor
stopped records a RESET_STREAM with exactly the reserved code `0x73656E64`
and never an implicit FIN; dropping a `RecvStream` without an explicit
`stop` and without a received FIN or RESET_STREAM records a STOP_SENDING
with exactly `0x6563766464726F70`; in every other state drop records
nothing. -/
theorem C7_drop_policy (s : SendState) (r : RecvState) (c : Nat) :
    (s.fin = false → s.reset = none → s.stop = none →
      s.onDrop = { s with reset := some sendDropCode }
      ∧ s.onDrop.flushEffect = .resetStream 0x73656E64
      ∧ s.onDrop.fin = false)
    ∧ (∀ s', s.finish = .ok s' → s'.onDrop = s')
    ∧ (s.resetOp c).onDrop = s.resetOp c
    ∧ (s.fin = true ∨ s.reset ≠ none ∨ s.stop ≠ none → s.onDrop = s)
    ∧ (r.fin = false → r.reset = none → r.stop = none →
      r.onDrop = { r with stop := some recvDropCode }
      ∧ r.onDrop.flushEffect = .stopSending 0x6563766464726F70)
    ∧ (r.stopOp c).onDrop = r.stopOp c
    ∧ (r.fin = true ∨ r.reset ≠ none ∨ r.stop ≠ none → r.onDrop = r) := by
  refine ⟨?_, ?_, ?_, ?_, ?_, ?_, ?_⟩
  · intro h1 h2 h3
    refine ⟨?_, ?_, ?_⟩
    · simp [SendState.onDrop, h1, h2, h3]
    · simp [SendState.onDrop, SendState.flushEffect, sendDropCode,
        h1, h2, h3]
    · simp [SendState.onDrop, h1, h2, h3]
  · intro s' hfin
    rcases hr : s.reset with _ | c1
    · rcases hs2 : s.stop with _ | c2
      · rcases hf : s.fin with _ | _
        · simp only [SendState.finish, hr, hs2, hf, Bool.false_eq_true,
            if_false] at hfin
          cases hfin
          simp [SendState.onDrop]
        · simp [SendState.finish, hr, hs2, hf] at hfin
      · simp [SendState.finish, hr, hs2] at hfin
    · simp [SendState.finish, hr] at hfin
  · simp [SendState.resetOp, SendState.onDrop]
  · intro h
    rcases h with h | h | h
    · simp [SendState.onDrop, h]
    · simp [SendState.onDrop, h]
    · simp [SendState.onDrop, h]
  · intro h1 h2 h3
    refine ⟨?_, ?_⟩
    · simp [RecvState.onDrop, h1, h2, h3]
    · simp [RecvState.onDrop, RecvState.flushEffect, recvDropCode,
        h1, h2, h3]
  · simp [RecvState.stopOp, RecvState.onDrop]
  · intro h
    rcases h with h | h | h
    · simp [RecvState.onDrop, h]
    · simp [RecvState.onDrop, h]
    · simp [RecvState.onDrop, h]

/-- C7 witness: the drop policy evaluated at fresh send and receive
states. -/
theorem C7_drop_policy_witness :
    SendState.onDrop ⟨false, none, none, []⟩
      = ⟨false, some 0x73656E64, none, []⟩
    ∧ RecvState.onDrop ⟨false, none, none⟩
      = ⟨false, none, some 0x6563766464726F70⟩ :=
  ⟨((C7_drop_policy ⟨false, none, none, []⟩ ⟨false, none, none⟩ 0).1
      rfl rfl rfl).1,
   ((C7_drop_policy ⟨false, none, none, []⟩ ⟨false, none, none⟩
      0).2.2.2.2.1 rfl rfl rfl).1⟩

/-! ## Claim C2 -/

/-- C2 (amended): a uni stream whose WEBTRANSPORT header carries a wrong
session id is rejected by the header decode with an error; the accept loop
skips errored streams and keeps surfacing later streams with the correct
session id; the rejected stream's drop records a STOP_SENDING with the
reserved recv-drop code `0x6563766464726F70` (not a reset with code 0). -/
theorem C2_wrong_session_uni (sid wrong : Nat) (body : List Nat)
    (hwrong : wrong < 2 ^ 62) (hne : wrong ≠ sid)
    (rest : List (Except SessionError (Nat × List Nat))) (st : AcceptState)
    (good : List Nat) :
    SessionAccept.decodeUni sid
        (VarInt.encode StreamUni.WEBTRANSPORT ++ (VarInt.encode wrong ++ body))
      = .error .unknown
    ∧ pollAcceptUni (.error .unknown :: rest) st = pollAcceptUni rest st
    ∧ pollAcceptUni [.error .unknown, .ok (StreamUni.WEBTRANSPORT, good)] st
        = (some good, st)
    ∧ (RecvState.onDrop ⟨false, none, none⟩).flushEffect
        = .stopSending recvDropCode := by
  refine ⟨?_, rfl, rfl, rfl⟩
  have h1 := VarInt.decode_encode StreamUni.WEBTRANSPORT (by decide)
    (VarInt.encode wrong ++ body)
  have h2 := VarInt.decode_encode wrong hwrong body
  simp [SessionAccept.decodeUni, h1, h2, hne]

/-- C2 counterexample: the rejected stream is closed via STOP_SENDING with
the reserved code `0x6563766464726F70`, not "reset with code 0" as the
claim states. -/
theorem C2_stop_code_counterexample :
    SessionAccept.decodeUni 7
        (VarInt.encode StreamUni.WEBTRANSPORT ++ (VarInt.encode 8 ++ [1, 2, 3]))
      = .error .unknown
    ∧ (RecvState.onDrop ⟨false, none, none⟩).flushEffect
        = .stopSending 0x6563766464726F70
    ∧ (0x6563766464726F70 : Nat) ≠ 0 :=
  ⟨rfl, rfl, by decide⟩

/-- C2 witness: the amended statement evaluated at session id 7 and wrong
id 8. -/
theorem C2_wrong_session_witness :
    SessionAccept.decodeUni 7
        (VarInt.encode StreamUni.WEBTRANSPORT ++ (VarInt.encode 8 ++ [9]))
      = .error .unknown
    ∧ pollAcceptUni [.error .unknown, .ok (StreamUni.WEBTRANSPORT, [5])]
        ⟨none, none⟩ = (some [5], ⟨none, none⟩) :=
  ⟨(C2_wrong_session_uni 7 8 [9] (by decide) (by decide) [] ⟨none, none⟩
      []).1,
   (C2_wrong_session_uni 7 8 [9] (by decide) (by decide) [] ⟨none, none⟩
      [5]).2.2.1⟩

/-! ## Claim C1 -/

/-- C1 (amended): `supports_webtransport` consults the legacy datagram
alias only when `ENABLE_DATAGRAM` is absent — when `ENABLE_DATAGRAM` is
present with a value other than 1 the result is 0 regardless of the alias;
with the datagram gate passed, `WEBTRANSPORT_MAX_SESSIONS` wins if present,
else the deprecated enable/max pair as the claim states. -/
theorem C1_supports_webtransport_rule (s : Settings) :
    (∀ v, s.get Setting.ENABLE_DATAGRAM = some v → v ≠ 1 →
        s.supportsWebtransport = 0)
    ∧ (s.get Setting.ENABLE_DATAGRAM = none →
        s.get Setting.ENABLE_DATAGRAM_DEPRECATED ≠ some 1 →
        s.supportsWebtransport = 0)
    ∧ ((s.get Setting.ENABLE_DATAGRAM = some 1
        ∨ (s.get Setting.ENABLE_DATAGRAM = none
            ∧ s.get Setting.ENABLE_DATAGRAM_DEPRECATED = some 1)) →
      (∀ mx, s.get Setting.WEBTRANSPORT_MAX_SESSIONS = some mx →
          s.supportsWebtransport = mx)
      ∧ (s.get Setting.WEBTRANSPORT_MAX_SESSIONS = none →
        (s.get Setting.WEBTRANSPORT_ENABLE_DEPRECATED = some 1 →
          (∀ mxd, s.get Setting.WEBTRANSPORT_MAX_SESSIONS_DEPRECATED
              = some mxd → s.supportsWebtransport = mxd)
          ∧ (s.get Setting.WEBTRANSPORT_MAX_SESSIONS_DEPRECATED = none →
              s.supportsWebtransport = 1))
        ∧ (s.get Setting.WEBTRANSPORT_ENABLE_DEPRECATED ≠ some 1 →
            s.supportsWebtransport = 0))) := by
  refine ⟨?_, ?_, ?_⟩
  · intro v hv hne
    simp only [Settings.supportsWebtransport, hv, Option.or]
    rw [if_pos (by simp [hne])]
  · intro hed hdep
    simp only [Settings.supportsWebtransport, hed, Option.or]
    rw [if_pos (by simpa using hdep)]
  · intro hgate
    have hor : (s.get Setting.ENABLE_DATAGRAM).or
        (s.get Setting.ENABLE_DATAGRAM_DEPRECATED) = some 1 := by
      rcases hgate with h | ⟨h1, h2⟩
      · simp [h, Option.or]
      · simp [h1, h2, Option.or]
    refine ⟨?_, ?_⟩
    · intro mx hmx
      simp only [Settings.supportsWebtransport, hor, hmx]
      rw [if_neg (by simp)]
    · intro hnone
      refine ⟨?_, ?_⟩
      · intro hen
        refine ⟨?_, ?_⟩
        · intro mxd hmxd
          simp only [Settings.supportsWebtransport, hor, hnone, hen, hmxd]
          rw [if_neg (by simp)]
          rfl
        · intro hmxd
          simp only [Settings.supportsWebtransport, hor, hnone, hen, hmxd]
          rw [if_neg (by simp)]
          rfl
      · intro hen
        simp only [Settings.supportsWebtransport, hor, hnone]
        rw [if_neg (by simp)]
        rw [if_pos (by simpa using hen)]

/-- C1 counterexample: with `ENABLE_DATAGRAM = 0` but its legacy alias
`= 1` (and a max-sessions value present), the code returns 0 — the claim
says this map does not return 0. -/
theorem C1_datagram_zero_counterexample :
    Settings.supportsWebtransport
      [(Setting.ENABLE_DATAGRAM, 0), (Setting.ENABLE_DATAGRAM_DEPRECATED, 1),
       (Setting.WEBTRANSPORT_MAX_SESSIONS, 5)] = 0 := by decide

/-- C1 witness: the amended rule evaluated on a concrete map. -/
theorem C1_supports_witness :
    Settings.supportsWebtransport
      [(Setting.ENABLE_DATAGRAM, 1), (Setting.WEBTRANSPORT_MAX_SESSIONS, 4)]
      = 4 :=
  ((C1_supports_webtransport_rule
      [(Setting.ENABLE_DATAGRAM, 1), (Setting.WEBTRANSPORT_MAX_SESSIONS, 4)]).2.2
    (Or.inl (by decide))).1 4 (by decide)

/-! ## Settings round-trip lemmas -/

theorem VarInt.encode_ne_nil (v : Nat) : VarInt.encode v ≠ [] := by
  unfold VarInt.encode
  split
  · simp [toBytesBE]
  · split
    · simp [toBytesBE]
    · split
      · simp [toBytesBE]
      · simp [toBytesBE]

theorem find?_map_replace {s : List (Nat × Nat)} {k v k' : Nat} (h : k' ≠ k) :
    ((s.map (fun p => if p.1 == k then (k, v) else p)).find?
        (fun p => p.1 == k'))
      = s.find? (fun p => p.1 == k') := by
  induction s with
  | nil => rfl
  | cons p s ih =>
    by_cases hpk : p.1 = k
    · have h1 : ((k, v).1 == k') = false := by simpa using Ne.symm h
      have h2 : (p.1 == k') = false := by
        simp only [beq_eq_false_iff_ne, ne_eq, hpk]
        exact fun hc => h hc.symm
      simp only [List.map_cons, show (p.1 == k) = true by simpa using hpk,
        if_true, List.find?_cons, h1, h2, ih]
    · have h3 : (p.1 == k) = false := by simpa using hpk
      simp only [List.map_cons, h3, Bool.false_eq_true, if_false,
        List.find?_cons]
      by_cases hpk' : p.1 = k'
      · simp [show (p.1 == k') = true by simpa using hpk']
      · simp only [show (p.1 == k') = false by simpa using hpk', ih]

theorem find?_map_replace_self {s : List (Nat × Nat)} {k v : Nat}
    (hany : s.any (fun p => p.1 == k) = true) :
    ((s.map (fun p => if p.1 == k then (k, v) else p)).find?
        (fun p => p.1 == k))
      = some (k, v) := by
  induction s with
  | nil => simp at hany
  | cons p s ih =>
    by_cases hpk : p.1 = k
    · have h1 : (p.1 == k) = true := by simpa using hpk
      simp only [List.map_cons, h1, if_true, List.find?_cons,
        show ((k, v).1 == k) = true by simp]
    · have h3 : (p.1 == k) = false := by simpa using hpk
      simp only [List.map_cons, h3, Bool.false_eq_true, if_false,
        List.find?_cons]
      exact ih (by simpa [h3] using hany)

theorem Settings.get_insert (s : Settings) (k v k' : Nat) :
    (s.insert k v).get k' = if k' = k then some v else s.get k' := by
  unfold Settings.insert Settings.get
  by_cases hany : s.any (fun p => p.1 == k) = true
  · rw [if_pos hany]
    by_cases hk : k' = k
    · subst hk
      rw [if_pos rfl, find?_map_replace_self hany]
      rfl
    · rw [if_neg hk, find?_map_replace hk]
  · rw [if_neg hany]
    have hnone : s.find? (fun p => p.1 == k) = none := by
      rw [List.find?_eq_none]
      intro p hp hc
      exact hany (List.any_eq_true.mpr ⟨p, hp, hc⟩)
    rw [List.find?_append]
    by_cases hk : k' = k
    · rw [if_pos hk, hk, hnone]
      simp [List.find?_cons, show (k == k) = true by simp]
    · rw [if_neg hk]
      have hsingle : ([(k, v)].find? (fun p => p.1 == k')) = none := by
        simp [show (k == k') = false by simpa using Ne.symm hk]
      rw [hsingle]
      cases s.find? (fun p => p.1 == k') <;> rfl

/-- One step of the id/value fold used by the SETTINGS payload decoders. -/
def settingStep (acc : Settings) (p : Nat × Nat) : Settings :=
  if settingIsGrease p.1 then acc else acc.insert p.1 p.2

theorem Settings.decodePairsGo_encodePairs :
    ∀ (pairs : List (Nat × Nat)) (acc : Settings) (fuel : Nat),
      (∀ p ∈ pairs, p.1 < 2 ^ 62 ∧ p.2 < 2 ^ 62) →
      (Settings.encodePairs pairs).length ≤ fuel →
      Settings.decodePairsGo fuel (Settings.encodePairs pairs) acc
        = .ok (pairs.foldl settingStep acc) := by
  intro pairs
  induction pairs with
  | nil =>
    intro acc fuel _ _
    match fuel with
    | 0 => rfl
    | fuel + 1 => rfl
  | cons p ps ih =>
    intro acc fuel hwf hfuel
    obtain ⟨hp1, hp2⟩ := hwf p (by simp)
    have hbytes : Settings.encodePairs (p :: ps)
        = VarInt.encode p.1 ++ (VarInt.encode p.2
          ++ Settings.encodePairs ps) := by
      simp [Settings.encodePairs]
    have h1 := VarInt.decode_encode p.1 hp1
      (VarInt.encode p.2 ++ Settings.encodePairs ps)
    have h2 := VarInt.decode_encode p.2 hp2 (Settings.encodePairs ps)
    have hlen1 : 1 ≤ (VarInt.encode p.1).length :=
      List.length_pos.mpr (VarInt.encode_ne_nil p.1)
    have hlen2 : 1 ≤ (VarInt.encode p.2).length :=
      List.length_pos.mpr (VarInt.encode_ne_nil p.2)
    rw [hbytes] at hfuel ⊢
    simp only [List.length_append] at hfuel
    obtain ⟨fuel, rfl⟩ : ∃ f, fuel = f + 1 := ⟨fuel - 1, by omega⟩
    rcases he : VarInt.encode p.1 with _ | ⟨b, bs⟩
    · exact absurd he (VarInt.encode_ne_nil p.1)
    · rw [he] at h1
      simp only [List.cons_append]
      simp only [List.cons_append] at h1
      rw [Settings.decodePairsGo]
      simp only [h1, h2]
      rw [show (if settingIsGrease p.1 then acc else acc.insert p.1 p.2)
          = settingStep acc p from rfl]
      rw [ih (settingStep acc p) fuel
        (fun q hq => hwf q (by simp [hq])) (by omega)]
      rfl

/-- The value of the last non-GREASE occurrence of `id` in a pair sequence,
in payload order — the specification-level description of duplicate
handling. -/
def lastValue (pairs : List (Nat × Nat)) (id : Nat) : Option Nat :=
  ((((pairs.filter (fun p => !settingIsGrease p.1))).reverse).find?
    (fun p => p.1 == id)).map (·.2)

theorem lastValue_nil (id : Nat) : lastValue [] id = none := rfl

theorem lastValue_cons (p : Nat × Nat) (ps : List (Nat × Nat)) (id : Nat) :
    lastValue (p :: ps) id
      = (lastValue ps id).or
          (if settingIsGrease p.1 = false ∧ p.1 = id then some p.2
           else none) := by
  unfold lastValue
  by_cases hg : settingIsGrease p.1
  · rw [List.filter_cons_of_neg (by simp [hg])]
    rw [if_neg (by simp [hg])]
    cases h : ((((ps.filter fun p => !settingIsGrease p.1)).reverse).find?
      (fun q => q.1 == id)) <;> rfl
  · rw [List.filter_cons_of_pos (by simp [hg]), List.reverse_cons,
      List.find?_append]
    by_cases hid : p.1 = id
    · rw [if_pos ⟨by simpa using hg, hid⟩]
      cases h : ((((ps.filter fun p => !settingIsGrease p.1)).reverse).find?
        (fun q => q.1 == id))
      · simp [show (p.1 == id) = true by simpa using hid]
      · simp
    · rw [if_neg (by tauto)]
      have : ([p].find? (fun q => q.1 == id)) = none := by
        simp [show (p.1 == id) = false by simpa using hid]
      rw [this]
      cases h : ((((ps.filter fun p => !settingIsGrease p.1)).reverse).find?
        (fun q => q.1 == id)) <;> rfl

theorem get_foldl_settingStep (pairs : List (Nat × Nat)) (acc : Settings)
    (id : Nat) :
    (pairs.foldl settingStep acc).get id
      = (lastValue pairs id).or (acc.get id) := by
  induction pairs generalizing acc with
  | nil => simp [lastValue_nil, Option.or]
  | cons p ps ih =>
    rw [List.foldl_cons, ih (settingStep acc p), lastValue_cons]
    by_cases hg : settingIsGrease p.1
    · rw [if_neg (by simp [hg])]
      rw [show settingStep acc p = acc by simp [settingStep, hg]]
      cases lastValue ps id <;> rfl
    · have hstep : (settingStep acc p).get id
          = if id = p.1 then some p.2 else acc.get id := by
        rw [show settingStep acc p = acc.insert p.1 p.2 by
          simp [settingStep, hg]]
        exact Settings.get_insert acc p.1 p.2 id
      rw [hstep]
      by_cases hid : p.1 = id
      · have hcond1 : settingIsGrease p.1 = false ∧ p.1 = id :=
          ⟨by simpa using hg, hid⟩
        rw [if_pos hid.symm, if_pos hcond1]
        cases lastValue ps id <;> rfl
      · have hcond1 : ¬ (settingIsGrease p.1 = false ∧ p.1 = id) :=
          fun hc => hid hc.2
        have hcond2 : ¬ (id = p.1) := fun hc => hid hc.symm
        rw [if_neg hcond2, if_neg hcond1]
        cases lastValue ps id <;> rfl

theorem foldl_settingStep_fresh :
    ∀ (pairs : List (Nat × Nat)) (acc : Settings),
      (∀ p ∈ pairs, ∀ q ∈ acc, q.1 ≠ p.1) →
      (pairs.map Prod.fst).Nodup →
      (∀ p ∈ pairs, settingIsGrease p.1 = false) →
      pairs.foldl settingStep acc = acc ++ pairs := by
  intro pairs
  induction pairs with
  | nil => intro acc _ _ _; simp
  | cons p ps ih =>
    intro acc hdisj hnodup hng
    have hany : acc.any (fun q => q.1 == p.1) = false := by
      rw [List.any_eq_false]
      intro q hq
      simpa using hdisj p (by simp) q hq
    have hstep : settingStep acc p = acc ++ [p] := by
      rw [show settingStep acc p = acc.insert p.1 p.2 by
        simp [settingStep, hng p (by simp)]]
      rw [Settings.insert, if_neg (by simp [hany])]
    rw [List.foldl_cons, hstep,
      ih (acc ++ [p])
        (by
          intro x hx q hq
          rcases List.mem_append.mp hq with hq | hq
          · exact hdisj x (by simp [hx]) q hq
          · simp only [List.mem_singleton] at hq
            subst hq
            simp only [List.nodup_cons, List.map_cons, List.mem_map] at hnodup
            intro hc
            exact hnodup.1 ⟨x, hx, hc.symm⟩)
        (by simpa using hnodup.of_cons)
        (fun x hx => hng x (by simp [hx]))]
    simp

/-- The SETTINGS-frame step of the `Settings::read` loop. -/
theorem Settings.readFramesGo_settings_frame (payload t : List Nat)
    (fuel : Nat) (h : payload.length ≤ maxFrameSize) :
    Settings.readFramesGo (fuel + 1)
        (VarInt.encode Frame.SETTINGS
          ++ (VarInt.encode payload.length ++ (payload ++ t)))
      = (Settings.decodePairs payload []).map (fun s => (s, t)) := by
  have h1 := VarInt.decode_encode Frame.SETTINGS (by decide)
    (VarInt.encode payload.length ++ (payload ++ t))
  have h2 := VarInt.decode_encode payload.length
    (by unfold maxFrameSize at h; omega) (payload ++ t)
  have hno1 : ¬ (maxFrameSize < payload.length) := by omega
  have hg : settingIsGrease Frame.SETTINGS = false := by decide
  have hno2 : ¬ ((payload ++ t).length < payload.length) := by simp
  simp only [Settings.readFramesGo, h1, h2, hno1, if_false, hg,
    Bool.false_eq_true, hno2,
    if_neg (by decide : ¬ (Frame.SETTINGS ≠ Frame.SETTINGS)),
    List.take_left' (rfl : payload.length = payload.length),
    List.drop_left' (rfl : payload.length = payload.length)]

/-- The rejection step of the `Settings::read` loop for a complete
non-GREASE, non-SETTINGS frame. -/
theorem Settings.readFramesGo_unexpected (ftyp : Nat) (payload t : List Nat)
    (fuel : Nat) (hg : settingIsGrease ftyp = false)
    (hne : ftyp ≠ Frame.SETTINGS) (hf : ftyp < 2 ^ 62)
    (hlen : payload.length ≤ maxFrameSize) :
    Settings.readFramesGo (fuel + 1)
        (VarInt.encode ftyp
          ++ (VarInt.encode payload.length ++ (payload ++ t)))
      = .error (.unexpectedFrame ftyp) := by
  have h1 := VarInt.decode_encode ftyp hf
    (VarInt.encode payload.length ++ (payload ++ t))
  have h2 := VarInt.decode_encode payload.length
    (by unfold maxFrameSize at hlen; omega) (payload ++ t)
  have hno1 : ¬ (maxFrameSize < payload.length) := by omega
  have hno2 : ¬ ((payload ++ t).length < payload.length) := by simp
  simp only [Settings.readFramesGo, h1, h2, hno1, if_false, hg,
    Bool.false_eq_true, hno2, if_pos hne]

/-- `Settings::read` consumes exactly the encoded settings and returns the
map, for maps without GREASE ids, without duplicate ids, within the frame
ceiling. -/
theorem Settings.read_encode_exact (s : Settings) (t : List Nat)
    (hwf : ∀ p ∈ s, p.1 < 2 ^ 62 ∧ p.2 < 2 ^ 62 ∧ settingIsGrease p.1 = false)
    (hnodup : (s.map Prod.fst).Nodup)
    (hlen : (Settings.encodePairs s).length ≤ maxFrameSize) :
    Settings.read (Settings.encode s ++ t) = .ok (s, t) := by
  rw [show Settings.encode s ++ t
      = VarInt.encode StreamUni.CONTROL
        ++ (VarInt.encode Frame.SETTINGS
          ++ (VarInt.encode (Settings.encodePairs s).length
            ++ (Settings.encodePairs s ++ t)))
    by simp [Settings.encode]]
  have h0 := VarInt.decode_encode StreamUni.CONTROL (by decide)
    (VarInt.encode Frame.SETTINGS
      ++ (VarInt.encode (Settings.encodePairs s).length
        ++ (Settings.encodePairs s ++ t)))
  simp only [Settings.read, h0,
    if_neg (by decide : ¬ (StreamUni.CONTROL ≠ StreamUni.CONTROL))]
  rw [show (VarInt.encode Frame.SETTINGS
      ++ (VarInt.encode (Settings.encodePairs s).length
        ++ (Settings.encodePairs s ++ t))).length + 1
      = (VarInt.encode Frame.SETTINGS
          ++ (VarInt.encode (Settings.encodePairs s).length
            ++ (Settings.encodePairs s ++ t))).length + 1 from rfl]
  rw [Settings.readFramesGo_settings_frame (Settings.encodePairs s) t _ hlen]
  rw [Settings.decodePairs,
    Settings.decodePairsGo_encodePairs s []
      (Settings.encodePairs s).length
      (fun p hp => ⟨(hwf p hp).1, (hwf p hp).2.1⟩) (le_refl _)]
  rw [foldl_settingStep_fresh s [] (by simp) hnodup
    (fun p hp => (hwf p hp).2.2)]
  rfl

/-! ## Claim C8 -/

/-- The SETTINGS payload of claim C8's scenario. -/
def c8Pairs : List (Nat × Nat) :=
  [(Setting.ENABLE_DATAGRAM, 1), (Setting.WEBTRANSPORT_MAX_SESSIONS, 3),
   (0x40, 0x01), (0x21, 0xFF)]

/-- The wire of claim C8's scenario: CONTROL stream type, a GREASE frame,
then the SETTINGS frame with `c8Pairs`. -/
def c8Wire : List Nat :=
  VarInt.encode StreamUni.CONTROL
    ++ VarInt.encode 0x21 ++ VarInt.encode 4 ++ [9, 9, 9, 9]
    ++ VarInt.encode Frame.SETTINGS
    ++ VarInt.encode (Settings.encodePairs c8Pairs).length
    ++ Settings.encodePairs c8Pairs

/-- C8: `Settings::read` fails with `UnexpectedStreamType` whenever the
first VarInt is not CONTROL, fails with `UnexpectedFrame` on a complete
non-GREASE frame other than SETTINGS, skips GREASE frames before SETTINGS
and discards GREASE setting ids: the scenario payload decodes to a map
holding only ENABLE_DATAGRAM and WEBTRANSPORT_MAX_SESSIONS, with
`supports_webtransport() = 3`. -/
theorem C8_settings_read_policy :
    (∀ (l r : List Nat) (typ : Nat), VarInt.decode l = some (typ, r) →
        typ ≠ StreamUni.CONTROL →
        Settings.read l = .error (.unexpectedStreamType typ))
    ∧ (∀ (ftyp : Nat) (payload t : List Nat),
        settingIsGrease ftyp = false → ftyp ≠ Frame.SETTINGS →
        ftyp < 2 ^ 62 → payload.length ≤ maxFrameSize →
        Settings.read (VarInt.encode StreamUni.CONTROL
            ++ (VarInt.encode ftyp
              ++ (VarInt.encode payload.length ++ (payload ++ t))))
          = .error (.unexpectedFrame ftyp))
    ∧ Settings.read c8Wire
        = .ok ([(Setting.ENABLE_DATAGRAM, 1),
                (Setting.WEBTRANSPORT_MAX_SESSIONS, 3)], [])
    ∧ Settings.supportsWebtransport
        [(Setting.ENABLE_DATAGRAM, 1), (Setting.WEBTRANSPORT_MAX_SESSIONS, 3)]
        = 3 := by
  refine ⟨?_, ?_, rfl, by decide⟩
  · intro l r typ h ht
    simp only [Settings.read, h]
    rw [if_pos ht]
  · intro ftyp payload t hg hne hf hlen
    have h0 := VarInt.decode_encode StreamUni.CONTROL (by decide)
      (VarInt.encode ftyp ++ (VarInt.encode payload.length ++ (payload ++ t)))
    simp only [Settings.read, h0,
      if_neg (by decide : ¬ (StreamUni.CONTROL ≠ StreamUni.CONTROL))]
    exact Settings.readFramesGo_unexpected ftyp payload t _ hg hne hf hlen

/-- C8 witness: the error paths evaluated on concrete wires. -/
theorem C8_settings_read_witness :
    Settings.read [0x02] = .error (.unexpectedStreamType 2)
    ∧ Settings.read (VarInt.encode StreamUni.CONTROL
        ++ (VarInt.encode Frame.HEADERS
          ++ (VarInt.encode (0 : Nat) ++ ([] ++ []))))
      = .error (.unexpectedFrame Frame.HEADERS) := by
  refine ⟨C8_settings_read_policy.1 [0x02] [] 2 (by decide) (by decide), ?_⟩
  have h := C8_settings_read_policy.2.1 Frame.HEADERS [] []
    (by decide) (by decide) (by decide) (by decide)
  simpa using h

/-! ## Claim C10 -/

/-- C10: a SETTINGS payload with repeated non-GREASE ids decodes (and
reads) successfully, and the resulting map binds each id to the value of
its last non-GREASE occurrence in payload order. -/
theorem C10_duplicates_last_wins (pairs : List (Nat × Nat)) (t : List Nat)
    (hwf : ∀ p ∈ pairs, p.1 < 2 ^ 62 ∧ p.2 < 2 ^ 62)
    (hlen : (Settings.encodePairs pairs).length ≤ maxFrameSize) :
    Settings.decode (Settings.encode pairs)
      = .ok (pairs.foldl settingStep [])
    ∧ Settings.read (Settings.encode pairs ++ t)
      = .ok (pairs.foldl settingStep [], t)
    ∧ ∀ id, (pairs.foldl settingStep []).get id = lastValue pairs id := by
  refine ⟨?_, ?_, ?_⟩
  · rw [show Settings.encode pairs
        = VarInt.encode StreamUni.CONTROL
          ++ (VarInt.encode Frame.SETTINGS
            ++ (VarInt.encode (Settings.encodePairs pairs).length
              ++ Settings.encodePairs pairs))
      by simp [Settings.encode]]
    have h0 := VarInt.decode_encode StreamUni.CONTROL (by decide)
      (VarInt.encode Frame.SETTINGS
        ++ (VarInt.encode (Settings.encodePairs pairs).length
          ++ Settings.encodePairs pairs))
    have h4 := VarInt.decode_encode Frame.SETTINGS (by decide)
      (VarInt.encode (Settings.encodePairs pairs).length
        ++ Settings.encodePairs pairs)
    have hn := VarInt.decode_encode (Settings.encodePairs pairs).length
      (by unfold maxFrameSize at hlen; omega) (Settings.encodePairs pairs)
    simp only [Settings.decode, h0,
      if_neg (by decide : ¬ (StreamUni.CONTROL ≠ StreamUni.CONTROL)),
      Frame.readBuf, h4, hn, lt_irrefl, if_false, List.take_length,
      List.drop_length,
      if_neg (by decide : ¬ (Frame.SETTINGS ≠ Frame.SETTINGS))]
    exact Settings.decodePairsGo_encodePairs pairs []
      (Settings.encodePairs pairs).length hwf (le_refl _)
  · rw [show Settings.encode pairs ++ t
        = VarInt.encode StreamUni.CONTROL
          ++ (VarInt.encode Frame.SETTINGS
            ++ (VarInt.encode (Settings.encodePairs pairs).length
              ++ (Settings.encodePairs pairs ++ t)))
      by simp [Settings.encode]]
    have h0 := VarInt.decode_encode StreamUni.CONTROL (by decide)
      (VarInt.encode Frame.SETTINGS
        ++ (VarInt.encode (Settings.encodePairs pairs).length
          ++ (Settings.encodePairs pairs ++ t)))
    simp only [Settings.read, h0,
      if_neg (by decide : ¬ (StreamUni.CONTROL ≠ StreamUni.CONTROL))]
    rw [Settings.readFramesGo_settings_frame (Settings.encodePairs pairs)
      t _ hlen]
    rw [Settings.decodePairs,
      Settings.decodePairsGo_encodePairs pairs []
        (Settings.encodePairs pairs).length hwf (le_refl _)]
    rfl
  · intro id
    rw [get_foldl_settingStep]
    cases lastValue pairs id <;> rfl

/-- C10 witness: two occurrences of ENABLE_DATAGRAM; the later value 7
wins. -/
theorem C10_duplicates_witness :
    Settings.decode (Settings.encode [(0x33, 0), (0x33, 7)])
      = .ok [(0x33, 7)]
    ∧ Settings.get [(0x33, 7)] 0x33 = lastValue [(0x33, 0), (0x33, 7)] 0x33 := by
  have h := C10_duplicates_last_wins [(0x33, 0), (0x33, 7)] []
    (by decide) (by decide)
  exact ⟨h.1, h.2.2 0x33⟩

/-! ## Structured-field round-trip lemmas -/

/-- The escaped body of a serialized sfv String. -/
def escapeBytes (s : List Nat) : List Nat :=
  s.flatMap (fun c => if c = 0x22 ∨ c = 0x5C then [0x5C, c] else [c])

theorem serializeString_eq (s : List Nat) :
    serializeString s = 0x22 :: (escapeBytes s ++ [0x22]) := rfl

theorem parseStringGo_escape :
    ∀ (s t : List Nat) (fuel : Nat), stringRefValid s = true →
      (escapeBytes s ++ 0x22 :: t).length ≤ fuel →
      parseStringGo fuel (escapeBytes s ++ 0x22 :: t) = some (s, t) := by
  intro s
  induction s with
  | nil =>
    intro t fuel _ hfuel
    simp only [escapeBytes, List.flatMap_nil, List.nil_append,
      List.length_cons] at hfuel ⊢
    obtain ⟨f, rfl⟩ : ∃ f, fuel = f + 1 := ⟨fuel - 1, by omega⟩
    simp [parseStringGo]
  | cons c s ih =>
    intro t fuel hvalid hfuel
    have hc : sfvStringChar c = true := by
      have := hvalid
      simp only [stringRefValid, List.all_cons, Bool.and_eq_true] at this
      exact this.1
    have hs : stringRefValid s = true := by
      have := hvalid
      simp only [stringRefValid, List.all_cons, Bool.and_eq_true] at this
      exact this.2
    simp only [sfvStringChar, Bool.and_eq_true, decide_eq_true_eq] at hc
    by_cases hesc : c = 0x22 ∨ c = 0x5C
    · have hbytes : escapeBytes (c :: s) ++ 0x22 :: t
          = 0x5C :: c :: (escapeBytes s ++ 0x22 :: t) := by
        simp [escapeBytes, hesc]
      rw [hbytes] at hfuel ⊢
      simp only [List.length_cons] at hfuel
      obtain ⟨f, rfl⟩ : ∃ f, fuel = f + 1 := ⟨fuel - 1, by omega⟩
      rw [parseStringGo]
      rw [if_neg (by omega), if_pos rfl]
      simp only [List.head?_cons, List.tail_cons]
      rw [if_pos hesc, ih t f hs (by simp at hfuel ⊢; omega)]
    · have hbytes : escapeBytes (c :: s) ++ 0x22 :: t
          = c :: (escapeBytes s ++ 0x22 :: t) := by
        simp [escapeBytes, hesc]
      rw [hbytes] at hfuel ⊢
      simp only [List.length_cons] at hfuel
      obtain ⟨f, rfl⟩ : ∃ f, fuel = f + 1 := ⟨fuel - 1, by omega⟩
      push_neg at hesc
      rw [parseStringGo]
      rw [if_neg hesc.1, if_neg hesc.2, if_pos (by omega),
        ih t f hs (by omega)]

theorem parseBareItem_string (s t : List Nat) (h : stringRefValid s = true) :
    parseBareItem (serializeString s ++ t) = some (.str s, t) := by
  have hbytes : serializeString s ++ t
      = 0x22 :: (escapeBytes s ++ 0x22 :: t) := by
    simp [serializeString_eq]
  rw [hbytes, parseBareItem]
  simp only [List.head?_cons, List.tail_cons, if_pos rfl,
    parseStringGo_escape s t _ h (le_refl _)]
  rfl

theorem sfvParseItem_string (s : List Nat) (h : stringRefValid s = true) :
    sfvParseItem (serializeString s) = some (.str s) := by
  rw [sfvParseItem, show serializeString s = serializeString s ++ [] by simp,
    parseBareItem_string s [] h]
  rfl

/-- `protocol_negotiation::decode_item` inverts the serializer. -/
theorem protocolDecodeItem_serialize (s : List Nat)
    (h : stringRefValid s = true) :
    protocolDecodeItem (serializeString s) = .ok s := by
  rw [protocolDecodeItem, sfvParseItem_string s h]

/-- Join of pre-serialized list members with `", "`. -/
def joinStrs : List (List Nat) → List Nat
  | [] => []
  | s :: rest => s ++ rest.flatMap (fun x => 0x2C :: 0x20 :: x)

theorem foldl_commaJoin (rest : List (List Nat)) :
    ∀ acc, rest.foldl (fun acc x => acc ++ 0x2C :: 0x20 :: x) acc
      = acc ++ rest.flatMap (fun x => 0x2C :: 0x20 :: x) := by
  induction rest with
  | nil => intro acc; simp
  | cons r rest ih =>
    intro acc
    rw [List.foldl_cons, ih (acc ++ 0x2C :: 0x20 :: r)]
    simp

theorem mapM_serialize (ps : List (List Nat))
    (h : ∀ p ∈ ps, stringRefValid p = true) :
    (ps.mapM (fun p =>
        if stringRefValid p then Except.ok (serializeString p)
        else Except.error ConnectError.structuredFieldError))
      = Except.ok (ps.map serializeString) := by
  induction ps with
  | nil => rfl
  | cons p ps ih =>
    rw [List.mapM_cons, if_pos (h p (by simp))]
    rw [show (ps.mapM (fun p =>
        if stringRefValid p then Except.ok (serializeString p)
        else Except.error ConnectError.structuredFieldError))
      = Except.ok (ps.map serializeString)
      from ih (fun q hq => h q (by simp [hq]))]
    rfl

/-- `protocol_negotiation::encode_list` on a nonempty list of valid
protocol names. -/
theorem protocolEncodeList_eq (p : List Nat) (ps : List (List Nat))
    (h : ∀ q ∈ p :: ps, stringRefValid q = true) :
    protocolEncodeList (p :: ps)
      = .ok (joinStrs ((p :: ps).map serializeString)) := by
  rw [protocolEncodeList]
  simp only [bind, Except.bind, mapM_serialize (p :: ps) h, List.map_cons]
  rw [foldl_commaJoin (ps.map serializeString) (serializeString p)]
  rfl

theorem serializeString_ne_nil (s : List Nat) : serializeString s ≠ [] := by
  simp [serializeString_eq]

theorem parseListGo_join :
    ∀ (ps : List (List Nat)) (fuel : Nat), ps ≠ [] →
      (∀ p ∈ ps, stringRefValid p = true) →
      (joinStrs (ps.map serializeString)).length + 1 ≤ fuel →
      parseListGo fuel (joinStrs (ps.map serializeString))
        = some (ps.map SfvItem.str) := by
  intro ps
  induction ps with
  | nil => intro fuel h; exact absurd rfl h
  | cons p ps ih =>
    intro fuel _ hvalid hfuel
    obtain ⟨f, rfl⟩ : ∃ f, fuel = f + 1 := ⟨fuel - 1, by omega⟩
    match ps, ih with
    | [], _ =>
      have hjoin : joinStrs ([p].map serializeString) = serializeString p := by
        simp [joinStrs]
      rw [hjoin] at hfuel ⊢
      rw [parseListGo,
        show serializeString p = serializeString p ++ [] by simp,
        parseBareItem_string p [] (hvalid p (by simp))]
      rfl
    | q :: ps, ih =>
      have hjoin : joinStrs ((p :: q :: ps).map serializeString)
          = serializeString p
            ++ 0x2C :: 0x20 :: joinStrs ((q :: ps).map serializeString) := by
        simp [joinStrs]
      have hq0 : joinStrs ((q :: ps).map serializeString)
          = 0x22 :: (escapeBytes q
            ++ 0x22 :: (ps.map serializeString).flatMap
              (fun x => 0x2C :: 0x20 :: x)) := by
        simp [joinStrs, serializeString_eq]
      rw [hjoin] at hfuel ⊢
      have hfuel2 : (joinStrs ((q :: ps).map serializeString)).length + 1
          ≤ f := by
        have hlenp : 1 ≤ (serializeString p).length :=
          List.length_pos.mpr (serializeString_ne_nil p)
        simp only [List.length_append, List.length_cons] at hfuel
        omega
      have hrec := ih f (by simp) (fun x hx => hvalid x (by simp [hx]))
        hfuel2
      rw [hq0] at hrec ⊢
      simp only [parseListGo, parseBareItem_string p _ (hvalid p (by simp)),
        List.dropWhile_cons, List.head?_cons]
      simp [hrec]

theorem joinStrs_map_ne_nil (p : List Nat) (ps : List (List Nat)) :
    joinStrs ((p :: ps).map serializeString) ≠ [] := by
  simp [joinStrs, serializeString_eq]

theorem sfvParseList_join (p : List Nat) (ps : List (List Nat))
    (h : ∀ q ∈ p :: ps, stringRefValid q = true) :
    sfvParseList (joinStrs ((p :: ps).map serializeString))
      = some ((p :: ps).map SfvItem.str) := by
  rw [sfvParseList, if_neg (joinStrs_map_ne_nil p ps)]
  exact parseListGo_join (p :: ps) _ (by simp) h (le_refl _)

theorem mapM_str (ps : List (List Nat)) :
    ((ps.map SfvItem.str).mapM (fun it =>
        match it with
        | .str s => Except.ok s
        | .other => Except.error ConnectError.invalidProtocol))
      = Except.ok ps := by
  induction ps with
  | nil => rfl
  | cons p ps ih =>
    rw [List.map_cons, List.mapM_cons]
    rw [show ((ps.map SfvItem.str).mapM (fun it =>
        match it with
        | .str s => Except.ok s
        | .other => Except.error ConnectError.invalidProtocol))
      = Except.ok ps from ih]
    rfl

/-- `protocol_negotiation::decode_list` inverts the list serializer. -/
theorem protocolDecodeList_join (p : List Nat) (ps : List (List Nat))
    (h : ∀ q ∈ p :: ps, stringRefValid q = true) :
    protocolDecodeList (joinStrs ((p :: ps).map serializeString))
      = .ok (p :: ps) := by
  rw [protocolDecodeList, sfvParseList_join p ps h]
  exact mapM_str (p :: ps)

theorem serializeString_ascii {s : List Nat} (h : stringRefValid s = true) :
    ∀ b ∈ serializeString s, b < 0x80 := by
  intro b hb
  rw [serializeString_eq] at hb
  rcases List.mem_cons.mp hb with hb | hb
  · omega
  rcases List.mem_append.mp hb with hb | hb
  · simp only [escapeBytes] at hb
    obtain ⟨c, hc, hbc⟩ := List.mem_flatMap.mp hb
    have hcv := List.all_eq_true.mp h c hc
    simp only [sfvStringChar, Bool.and_eq_true, decide_eq_true_eq] at hcv
    by_cases hesc : c = 0x22 ∨ c = 0x5C
    · rw [if_pos hesc] at hbc
      rcases List.mem_cons.mp hbc with hbc | hbc
      · omega
      · rcases List.mem_cons.mp hbc with hbc | hbc
        · omega
        · exact absurd hbc (List.not_mem_nil b)
    · rw [if_neg hesc] at hbc
      rcases List.mem_cons.mp hbc with hbc | hbc
      · omega
      · exact absurd hbc (List.not_mem_nil b)
  · rcases List.mem_cons.mp hb with hb | hb
    · omega
    · exact absurd hb (List.not_mem_nil b)

theorem joinStrs_ascii {ps : List (List Nat)}
    (h : ∀ p ∈ ps, stringRefValid p = true) :
    ∀ b ∈ joinStrs (ps.map serializeString), b < 0x80 := by
  intro b hb
  match ps with
  | [] => simp [joinStrs] at hb
  | p :: ps =>
    simp only [List.map_cons, joinStrs, List.mem_append,
      List.mem_flatMap] at hb
    rcases hb with hb | hb
    · exact serializeString_ascii (h p (by simp)) b hb
    · obtain ⟨x, hx, hbx⟩ := hb
      simp only [List.mem_map] at hx
      obtain ⟨q, hq, rfl⟩ := hx
      simp only [List.mem_cons] at hbx
      rcases hbx with hbx | hbx | hbx
      · omega
      · omega
      · exact serializeString_ascii (h q (by simp [hq])) b hbx

/-! ## URL round trip -/

theorem takeWhile_all_append {p : Nat → Bool} (xs ys : List Nat)
    (h : ∀ x ∈ xs, p x = true) :
    (xs ++ ys).takeWhile p = xs ++ ys.takeWhile p := by
  induction xs with
  | nil => simp
  | cons x xs ih =>
    simp only [List.cons_append, List.takeWhile_cons, h x (by simp),
      if_true]
    rw [ih (fun y hy => h y (by simp [hy]))]

theorem takeWhile_all {p : Nat → Bool} (xs : List Nat)
    (h : ∀ x ∈ xs, p x = true) : xs.takeWhile p = xs := by
  have := takeWhile_all_append xs [] h
  simpa using this

theorem urlParse_roundtrip (u : Url) (h : u.wf) :
    urlParse (asciiBytes "https://" ++ (u.authority ++ u.pathAndQuery))
      = some u := by
  obtain ⟨scheme, authority, path, query⟩ := u
  obtain ⟨hscheme, hane, hachars, hpath0, hpchars, hqchars⟩ := h
  simp only at hscheme hane hachars hpath0 hpchars hqchars
  subst hscheme
  have hlen8 : (asciiBytes "https://").length = 8 := by decide
  have hpq0 : ∃ p', path = 0x2F :: p' := by
    match path, hpath0 with
    | c :: p', h0 =>
      simp only [List.head?_cons, Option.some.injEq] at h0
      exact ⟨p', by rw [h0]⟩
  have hachars' : ∀ c ∈ authority,
      (fun c => !(c == 0x2F) && !(c == 0x3F)) c = true := by
    intro c hc
    have := List.all_eq_true.mp hachars c hc
    simp only [Bool.and_eq_true] at this
    simp [this.1.2, this.2]
  have hpchars' : ∀ c ∈ path, (fun c => !(c == 0x3F)) c = true := by
    intro c hc
    have := List.all_eq_true.mp hpchars c hc
    simp only [Bool.and_eq_true] at this
    simp [this.2]
  rw [urlParse]
  dsimp only
  rw [List.take_left' hlen8, if_pos rfl, List.drop_left' hlen8]
  obtain ⟨p', rfl⟩ := hpq0
  have hpqhead : ∃ r, Url.pathAndQuery ⟨asciiBytes "https", authority,
      0x2F :: p', query⟩ = 0x2F :: r := by
    cases query with
    | none => exact ⟨p', rfl⟩
    | some q => exact ⟨p' ++ 0x3F :: q, by simp [Url.pathAndQuery]⟩
  obtain ⟨r, hpq⟩ := hpqhead
  rw [takeWhile_all_append authority _ hachars', hpq]
  have hhead47 : (!((0x2F : Nat) == 0x2F) && !((0x2F : Nat) == 0x3F)) = false :=
    rfl
  simp only [List.takeWhile_cons, hhead47, Bool.false_eq_true, if_false,
    List.append_nil]
  rw [if_neg hane]
  rw [show (authority ++ (0x2F :: r)).drop authority.length = 0x2F :: r
    from List.drop_left' rfl]
  rw [← hpq]
  cases query with
  | none =>
    simp only [Url.pathAndQuery] at hpq ⊢
    rw [takeWhile_all _ hpchars']
    rw [if_neg (List.cons_ne_nil 0x2F p')]
    rw [List.drop_length]
  | some q =>
    simp only [Url.pathAndQuery] at hpq ⊢
    rw [takeWhile_all_append _ _ hpchars']
    have hhead63 : (!((0x3F : Nat) == 0x3F)) = false := rfl
    simp only [List.takeWhile_cons, hhead63, Bool.false_eq_true, if_false,
      List.append_nil]
    rw [if_neg (List.cons_ne_nil 0x2F p')]
    rw [show ((0x2F :: p') ++ (0x3F :: q)).drop (0x2F :: p').length
      = 0x3F :: q from List.drop_left' rfl]

/-! ## HEADERS frame reader -/

/-- The HEADERS step of the `read_headers_frame` loop. -/
theorem readHeadersFrameGo_headers (payload t : List Nat) (fuel : Nat)
    (h : payload.length ≤ maxFrameSize) :
    readHeadersFrameGo (fuel + 1)
        (VarInt.encode Frame.HEADERS
          ++ (VarInt.encode payload.length ++ (payload ++ t)))
      = .ok (payload, t) := by
  have h1 := VarInt.decode_encode Frame.HEADERS (by decide)
    (VarInt.encode payload.length ++ (payload ++ t))
  have h2 := VarInt.decode_encode payload.length
    (by unfold maxFrameSize at h; omega) (payload ++ t)
  have hno1 : ¬ (maxFrameSize < payload.length) := by omega
  have hg : settingIsGrease Frame.HEADERS = false := by decide
  have hno2 : ¬ ((payload ++ t).length < payload.length) := by simp
  simp only [readHeadersFrameGo, h1, h2, hno1, if_false, hg,
    Bool.false_eq_true, hno2,
    if_neg (by decide : ¬ (Frame.HEADERS ≠ Frame.HEADERS)),
    List.take_left' (rfl : payload.length = payload.length),
    List.drop_left' (rfl : payload.length = payload.length)]

/-- The rejection step of `read_headers_frame` for a complete non-GREASE,
non-HEADERS frame. -/
theorem readHeadersFrameGo_unexpected (ftyp : Nat) (payload t : List Nat)
    (fuel : Nat) (hg : settingIsGrease ftyp = false)
    (hne : ftyp ≠ Frame.HEADERS) (hf : ftyp < 2 ^ 62)
    (hlen : payload.length ≤ maxFrameSize) :
    readHeadersFrameGo (fuel + 1)
        (VarInt.encode ftyp
          ++ (VarInt.encode payload.length ++ (payload ++ t)))
      = .error (.unexpectedFrame ftyp) := by
  have h1 := VarInt.decode_encode ftyp hf
    (VarInt.encode payload.length ++ (payload ++ t))
  have h2 := VarInt.decode_encode payload.length
    (by unfold maxFrameSize at hlen; omega) (payload ++ t)
  have hno1 : ¬ (maxFrameSize < payload.length) := by omega
  have hno2 : ¬ ((payload ++ t).length < payload.length) := by simp
  simp only [readHeadersFrameGo, h1, h2, hno1, if_false, hg,
    Bool.false_eq_true, hno2, if_pos hne]

/-! ## CONNECT decode and encode pipelines -/

/-- `StatusCode::as_str` then parse: three-digit statuses survive the
round trip. -/
theorem statusParse_bytes (v : Nat) (h1 : 100 ≤ v) (h2 : v < 1000) :
    statusParse (statusBytes v) = some v := by
  have ha1 : (0x30 : Nat) ≤ 0x30 + v / 100 := by omega
  have ha2 : (0x30 : Nat) + v / 100 ≤ 0x39 := by omega
  have hb1 : (0x30 : Nat) ≤ 0x30 + v / 10 % 10 := by omega
  have hb2 : (0x30 : Nat) + v / 10 % 10 ≤ 0x39 := by omega
  have hc1 : (0x30 : Nat) ≤ 0x30 + v % 10 := by omega
  have hc2 : (0x30 : Nat) + v % 10 ≤ 0x39 := by omega
  simp only [statusBytes, statusParse, decide_eq_true ha1, decide_eq_true ha2,
    decide_eq_true hb1, decide_eq_true hb2, decide_eq_true hc1,
    decide_eq_true hc2, Bool.and_self, Bool.and_true, Bool.true_and, if_true]
  split
  · simp only [Option.some.injEq]; omega
  · next h => exact absurd (by omega) h

theorem connectRequestEncode_eq (req : ConnectRequest) :
    req.encode = Except.bind req.headerList
      (fun hs => Except.ok (VarInt.encode Frame.HEADERS
        ++ VarInt.encode (headersEncode hs).length ++ headersEncode hs)) := rfl

theorem connectResponseEncode_eq (resp : ConnectResponse) :
    resp.encode = Except.bind resp.headerList
      (fun hs => Except.ok (VarInt.encode Frame.HEADERS
        ++ VarInt.encode (headersEncode hs).length ++ headersEncode hs)) := rfl

theorem connectRequestRead_eq (l : List Nat) :
    ConnectRequest.read l = Except.bind (readHeadersFrame l)
      (fun br => Except.bind (ConnectRequest.decodeHeaders br.1)
        (fun req => Except.ok (req, br.2))) := rfl

theorem connectResponseRead_eq (l : List Nat) :
    ConnectResponse.read l = Except.bind (readHeadersFrame l)
      (fun br => Except.bind (ConnectResponse.decodeHeaders br.1)
        (fun resp => Except.ok (resp, br.2))) := rfl

/-- A list with a non-String member always fails the `decode_list` item
collection with `InvalidProtocol`. -/
theorem mapM_other (items : List SfvItem) (h : SfvItem.other ∈ items) :
    (items.mapM (fun it =>
        match it with
        | .str s => Except.ok s
        | .other => Except.error ConnectError.invalidProtocol))
      = .error ConnectError.invalidProtocol := by
  induction items with
  | nil => cases h
  | cons it items ih =>
    rw [List.mapM_cons]
    cases it with
    | str s =>
      have h' : SfvItem.other ∈ items := by
        rcases List.mem_cons.mp h with h | h
        · exact absurd h (by simp)
        · exact h
      rw [ih h']
      rfl
    | other => rfl

/-- A list with an invalid name always fails the `encode_list` serialization
loop with the sfv error. -/
theorem mapM_serialize_invalid (ps : List (List Nat)) (p : List Nat)
    (hmem : p ∈ ps) (hbad : stringRefValid p = false) :
    (ps.mapM (fun p =>
        if stringRefValid p then Except.ok (serializeString p)
        else Except.error ConnectError.structuredFieldError))
      = .error ConnectError.structuredFieldError := by
  induction ps with
  | nil => cases hmem
  | cons q ps ih =>
    rw [List.mapM_cons]
    by_cases hq : stringRefValid q = true
    · rw [if_pos hq]
      have hp' : p ∈ ps := by
        rcases List.mem_cons.mp hmem with h | h
        · subst h; rw [hbad] at hq; cases hq
        · exact h
      rw [ih hp']
      rfl
    · rw [if_neg hq]
      rfl

/-- With otherwise-valid CONNECT headers, any `decode_list` failure on the
`wt-available-protocols` value fails the whole request decode with
`InvalidProtocol` (connect.rs:146-151). -/
theorem decodeHeaderList_c4_err (v : List Nat) (e : ConnectError)
    (hv : protocolDecodeList v = .error e) :
    ConnectRequest.decodeHeaderList (c4Headers v)
      = .error .invalidProtocol := by
  have h1 : headersGet (c4Headers v) (asciiBytes ":scheme")
      = some (asciiBytes "https") := rfl
  have h2 : headersGet (c4Headers v) (asciiBytes ":authority")
      = some (asciiBytes "example.com") := rfl
  have h3 : headersGet (c4Headers v) (asciiBytes ":path")
      = some (asciiBytes "/") := rfl
  have h4 : headersGet (c4Headers v) (asciiBytes ":method")
      = some (asciiBytes "CONNECT") := rfl
  have h5 : headersGet (c4Headers v) (asciiBytes ":protocol")
      = some (asciiBytes "webtransport") := rfl
  have h6 : headersGet (c4Headers v) availableName = some v := rfl
  have hmc : methodParse (asciiBytes "CONNECT")
      = some (asciiBytes "CONNECT") := rfl
  simp only [ConnectRequest.decodeHeaderList, h1, h2, h3, h4, h5, h6, hmc, hv,
    if_true, bind, Except.bind, pure, Except.pure]

/-- C4: the spec claims subprotocol decode failures are non-fatal (treated as
an empty list) and that encode failures are `InvalidProtocol`.  On the code,
an unparsable `wt-available-protocols` value or a list with a non-String
member fails the request decode with `InvalidProtocol` (connect.rs maps any
`decode_list` error through `map_err(|_| InvalidProtocol)?`); only a missing
header yields the empty list.  On encode, an invalid name fails with the sfv
`StructuredFieldError`, not `InvalidProtocol`. -/
theorem C4_subprotocol_error_handling (v p : List Nat) (ps : List (List Nat))
    (items : List SfvItem) :
    (sfvParseList v = none →
      ConnectRequest.decodeHeaderList (c4Headers v)
        = .error .invalidProtocol)
    ∧ (sfvParseList v = some items → SfvItem.other ∈ items →
      ConnectRequest.decodeHeaderList (c4Headers v)
        = .error .invalidProtocol)
    ∧ (p ∈ ps → stringRefValid p = false →
      protocolEncodeList ps = .error .structuredFieldError) := by
  refine ⟨fun hv => ?_, fun hv hmem => ?_, fun hmem hbad => ?_⟩
  · apply decodeHeaderList_c4_err v ConnectError.structuredFieldError
    rw [protocolDecodeList, hv]
  · apply decodeHeaderList_c4_err v ConnectError.invalidProtocol
    rw [protocolDecodeList, hv]
    exact mapM_other items hmem
  · rw [protocolEncodeList]
    simp only [bind, Except.bind, mapM_serialize_invalid ps p hmem hbad]

set_option maxRecDepth 10000 in
/-- C4 counterexample: a lone-quote subprotocol header value does not parse,
and the request decode fails with `InvalidProtocol` instead of yielding an
empty protocol list; encoding a non-ASCII name fails with
`StructuredFieldError`, which is not `InvalidProtocol`. -/
theorem C4_parse_failure_counterexample :
    ConnectRequest.decodeHeaderList (c4Headers [0x22])
      = .error .invalidProtocol
    ∧ protocolEncodeList [[0x9F]] = .error .structuredFieldError
    ∧ ConnectError.structuredFieldError ≠ ConnectError.invalidProtocol := by
  refine ⟨rfl, rfl, by decide⟩

/-- C4 witness: a boolean list member (`?1`) is not a String and fails the
decode with `InvalidProtocol`; the non-ASCII name `0x9F` fails encode with
`StructuredFieldError`. -/
theorem C4_subprotocol_witness :
    ConnectRequest.decodeHeaderList (c4Headers [0x3F, 0x31])
      = .error .invalidProtocol
    ∧ protocolEncodeList [[0x9F]] = .error .structuredFieldError := by
  have h := C4_subprotocol_error_handling [0x3F, 0x31] [0x9F] [[0x9F]]
    [SfvItem.other]
  exact ⟨h.2.1 rfl (by decide), h.2.2 (by decide) rfl⟩

/-- C9: the `:method` clause holds only for parsable methods: a parsable
non-CONNECT method fails with `WrongMethod` carrying it, while an unparsable
one fails with `InvalidMethod`; a response `:status` that parses but is not
2xx fails with `WrongStatus` carrying it, an unparsable one fails with
`InvalidStatus`, and a 2xx status is accepted. -/
theorem C9_method_status_checks (m s tok : List Nat) (w : Nat) :
    (methodParse m = some tok → tok ≠ asciiBytes "CONNECT" →
      ConnectRequest.decodeHeaderList (c9ReqHeaders m)
        = .error (.wrongMethod (some tok)))
    ∧ (methodParse m = none →
      ConnectRequest.decodeHeaderList (c9ReqHeaders m)
        = .error .invalidMethod)
    ∧ (statusParse s = some w → statusIsSuccess w = false →
      ConnectResponse.decodeHeaderList (respBaseHeaders s)
        = .error (.wrongStatus (some w)))
    ∧ (statusParse s = none →
      ConnectResponse.decodeHeaderList (respBaseHeaders s)
        = .error .invalidStatus)
    ∧ (statusParse s = some w → statusIsSuccess w = true →
      ConnectResponse.decodeHeaderList (respBaseHeaders s)
        = .ok ⟨w, none⟩) := by
  have h1 : headersGet (c9ReqHeaders m) (asciiBytes ":scheme")
      = some (asciiBytes "https") := rfl
  have h2 : headersGet (c9ReqHeaders m) (asciiBytes ":authority")
      = some (asciiBytes "example.com") := rfl
  have h3 : headersGet (c9ReqHeaders m) (asciiBytes ":path")
      = some (asciiBytes "/") := rfl
  have h4 : headersGet (c9ReqHeaders m) (asciiBytes ":method") = some m := rfl
  have h5 : headersGet (c9ReqHeaders m) (asciiBytes ":protocol")
      = some (asciiBytes "webtransport") := rfl
  have h6 : headersGet (c9ReqHeaders m) availableName = none := rfl
  have g1 : headersGet (respBaseHeaders s) (asciiBytes ":status")
      = some s := rfl
  have g2 : headersGet (respBaseHeaders s) selectedName = none := rfl
  refine ⟨fun hm htok => ?_, fun hm => ?_, fun hsp hw => ?_, fun hsp => ?_,
    fun hsp hw => ?_⟩
  · simp only [ConnectRequest.decodeHeaderList, h1, h2, h3, h4, h5, h6, hm,
      if_neg htok, if_true, bind, Except.bind, pure, Except.pure]
  · simp only [ConnectRequest.decodeHeaderList, h1, h2, h3, h4, h5, h6, hm,
      if_true, bind, Except.bind, pure, Except.pure]
  · simp only [ConnectResponse.decodeHeaderList, g1, g2, hsp, hw,
      Bool.false_eq_true, if_false, bind, Except.bind, pure, Except.pure]
  · simp only [ConnectResponse.decodeHeaderList, g1, g2, hsp,
      bind, Except.bind, pure, Except.pure]
  · simp only [ConnectResponse.decodeHeaderList, g1, g2, hsp, hw, if_true,
      bind, Except.bind, pure, Except.pure]

set_option maxRecDepth 10000 in
/-- C9 counterexample: a present `:method` of `B@D` is not CONNECT, yet the
decode fails with `InvalidMethod` (the `http::Method` conversion fails), not
with `WrongMethod` carrying the received method. -/
theorem C9_invalid_method_counterexample :
    ConnectRequest.decodeHeaderList (c9ReqHeaders (asciiBytes "B@D"))
      = .error .invalidMethod
    ∧ ConnectError.invalidMethod
      ≠ ConnectError.wrongMethod (some (asciiBytes "B@D")) := by
  refine ⟨rfl, by decide⟩

/-- C9 witness: `GET` gives `WrongMethod`, `404` gives `WrongStatus`, `abc`
gives `InvalidStatus`, and `204` is accepted. -/
theorem C9_method_status_witness :
    ConnectRequest.decodeHeaderList (c9ReqHeaders (asciiBytes "GET"))
      = .error (.wrongMethod (some (asciiBytes "GET")))
    ∧ ConnectResponse.decodeHeaderList (respBaseHeaders (asciiBytes "404"))
      = .error (.wrongStatus (some 404))
    ∧ ConnectResponse.decodeHeaderList (respBaseHeaders (asciiBytes "abc"))
      = .error .invalidStatus
    ∧ ConnectResponse.decodeHeaderList (respBaseHeaders (asciiBytes "204"))
      = .ok ⟨204, none⟩ := by
  refine ⟨(C9_method_status_checks (asciiBytes "GET") (asciiBytes "404")
      (asciiBytes "GET") 404).1 rfl (by decide),
    (C9_method_status_checks (asciiBytes "GET") (asciiBytes "404")
      (asciiBytes "GET") 404).2.2.1 rfl rfl,
    (C9_method_status_checks (asciiBytes "GET") (asciiBytes "abc")
      (asciiBytes "GET") 0).2.2.2.1 rfl,
    (C9_method_status_checks (asciiBytes "GET") (asciiBytes "204")
      (asciiBytes "GET") 204).2.2.2.2 rfl rfl⟩

/-- `ConnectRequest::read` on a well-sized HEADERS frame followed by a tail:
the frame payload is consumed exactly. -/
theorem connectReadFrame (payload t : List Nat)
    (h : payload.length ≤ maxFrameSize) :
    ConnectRequest.read ((VarInt.encode Frame.HEADERS
        ++ VarInt.encode payload.length ++ payload) ++ t)
      = Except.bind (ConnectRequest.decodeHeaders payload)
          (fun req => Except.ok (req, t)) := by
  rw [connectRequestRead_eq]
  rw [show (VarInt.encode Frame.HEADERS ++ VarInt.encode payload.length
        ++ payload) ++ t
      = VarInt.encode Frame.HEADERS ++ (VarInt.encode payload.length
        ++ (payload ++ t)) from by simp]
  simp only [readHeadersFrame]
  rw [readHeadersFrameGo_headers payload t _ h]
  rfl

/-- `ConnectResponse::read` on a well-sized HEADERS frame followed by a
tail. -/
theorem connectRespReadFrame (payload t : List Nat)
    (h : payload.length ≤ maxFrameSize) :
    ConnectResponse.read ((VarInt.encode Frame.HEADERS
        ++ VarInt.encode payload.length ++ payload) ++ t)
      = Except.bind (ConnectResponse.decodeHeaders payload)
          (fun resp => Except.ok (resp, t)) := by
  rw [connectResponseRead_eq]
  rw [show (VarInt.encode Frame.HEADERS ++ VarInt.encode payload.length
        ++ payload) ++ t
      = VarInt.encode Frame.HEADERS ++ (VarInt.encode payload.length
        ++ (payload ++ t)) from by simp]
  simp only [readHeadersFrame]
  rw [readHeadersFrameGo_headers payload t _ h]
  rfl

/-- `ConnectRequest::read` inverts `ConnectRequest::encode` for well-formed
URLs, valid protocol names and an in-bounds frame, consuming exactly the
frame. -/
theorem connectRequestRead_encode (url : Url) (ps : List (List Nat))
    (t frame : List Nat) (hwf : url.wf)
    (hps : ∀ p ∈ ps, stringRefValid p = true)
    (henc : ConnectRequest.encode ⟨url, ps⟩ = .ok frame)
    (hsize : frame.length ≤ maxFrameSize) :
    ConnectRequest.read (frame ++ t) = .ok (⟨url, ps⟩, t) := by
  obtain ⟨scheme, authority, path, query⟩ := url
  obtain ⟨hscheme, hane, hachars, hpath0, hpchars, hqchars⟩ := hwf
  simp only at hscheme hane hachars hpath0 hpchars hqchars
  subst hscheme
  have hurl : urlParse (asciiBytes "https://"
      ++ (authority ++ Url.pathAndQuery
        ⟨asciiBytes "https", authority, path, query⟩))
      = some ⟨asciiBytes "https", authority, path, query⟩ :=
    urlParse_roundtrip ⟨asciiBytes "https", authority, path, query⟩
      ⟨rfl, hane, hachars, hpath0, hpchars, hqchars⟩
  have hurl' : urlParse (asciiBytes "https://"
      ++ authority ++ Url.pathAndQuery
        ⟨asciiBytes "https", authority, path, query⟩)
      = some ⟨asciiBytes "https", authority, path, query⟩ := by
    rw [List.append_assoc]
    exact hurl
  have hauth_ascii : ∀ b ∈ authority, b < 0x80 := by
    intro b hb
    have := List.all_eq_true.mp hachars b hb
    simp only [Bool.and_eq_true, urlChar, decide_eq_true_eq] at this
    omega
  have hpq_ascii : ∀ b ∈ Url.pathAndQuery
      ⟨asciiBytes "https", authority, path, query⟩, b < 0x80 := by
    intro b hb
    cases query with
    | none =>
      simp only [Url.pathAndQuery] at hb
      have := List.all_eq_true.mp hpchars b hb
      simp only [Bool.and_eq_true, urlChar, decide_eq_true_eq] at this
      omega
    | some q =>
      simp only [Url.pathAndQuery] at hb
      rcases List.mem_append.mp hb with hb | hb
      · have := List.all_eq_true.mp hpchars b hb
        simp only [Bool.and_eq_true, urlChar, decide_eq_true_eq] at this
        omega
      · rcases List.mem_cons.mp hb with rfl | hb
        · omega
        · simp only [Option.getD_some] at hqchars
          have := List.all_eq_true.mp hqchars b hb
          simp only [urlChar, Bool.and_eq_true, decide_eq_true_eq] at this
          omega
  have hmc : methodParse (asciiBytes "CONNECT")
      = some (asciiBytes "CONNECT") := rfl
  cases ps with
  | nil =>
    have hhl : ConnectRequest.headerList
        ⟨⟨asciiBytes "https", authority, path, query⟩, []⟩
        = .ok (reqHeaders (asciiBytes "CONNECT") authority
            (Url.pathAndQuery
              ⟨asciiBytes "https", authority, path, query⟩)) := rfl
    rw [connectRequestEncode_eq, hhl] at henc
    simp only [Except.bind] at henc
    injection henc with henc
    subst henc
    have hpay : (headersEncode (reqHeaders (asciiBytes "CONNECT") authority
        (Url.pathAndQuery
          ⟨asciiBytes "https", authority, path, query⟩))).length
        ≤ maxFrameSize := by
      simp only [List.length_append] at hsize
      omega
    rw [connectReadFrame _ t hpay]
    have hutf : ∀ p ∈ reqHeaders (asciiBytes "CONNECT") authority
        (Url.pathAndQuery ⟨asciiBytes "https", authority, path, query⟩),
        isUtf8 p.2 = true := by
      intro p hp
      simp only [reqHeaders, List.mem_cons, List.not_mem_nil, or_false] at hp
      rcases hp with rfl | rfl | rfl | rfl | rfl
      · decide
      · decide
      · exact isUtf8_of_ascii hauth_ascii
      · exact isUtf8_of_ascii hpq_ascii
      · decide
    simp only [ConnectRequest.decodeHeaders, headersDecode_encode hutf]
    have k1 : headersGet (reqHeaders (asciiBytes "CONNECT") authority
        (Url.pathAndQuery ⟨asciiBytes "https", authority, path, query⟩))
        (asciiBytes ":scheme") = some (asciiBytes "https") := rfl
    have k2 : headersGet (reqHeaders (asciiBytes "CONNECT") authority
        (Url.pathAndQuery ⟨asciiBytes "https", authority, path, query⟩))
        (asciiBytes ":authority") = some authority := rfl
    have k3 : headersGet (reqHeaders (asciiBytes "CONNECT") authority
        (Url.pathAndQuery ⟨asciiBytes "https", authority, path, query⟩))
        (asciiBytes ":path") = some (Url.pathAndQuery
          ⟨asciiBytes "https", authority, path, query⟩) := rfl
    have k4 : headersGet (reqHeaders (asciiBytes "CONNECT") authority
        (Url.pathAndQuery ⟨asciiBytes "https", authority, path, query⟩))
        (asciiBytes ":method") = some (asciiBytes "CONNECT") := rfl
    have k5 : headersGet (reqHeaders (asciiBytes "CONNECT") authority
        (Url.pathAndQuery ⟨asciiBytes "https", authority, path, query⟩))
        (asciiBytes ":protocol") = some (asciiBytes "webtransport") := rfl
    have k6 : headersGet (reqHeaders (asciiBytes "CONNECT") authority
        (Url.pathAndQuery ⟨asciiBytes "https", authority, path, query⟩))
        availableName = none := rfl
    simp only [ConnectRequest.decodeHeaderList, k1, k2, k3, k4, k5, k6, hmc,
      hurl', if_true, bind, Except.bind, pure, Except.pure]
  | cons p ps =>
    have hvalid : ∀ q ∈ p :: ps, stringRefValid q = true := hps
    have hhl : ConnectRequest.headerList
        ⟨⟨asciiBytes "https", authority, path, query⟩, p :: ps⟩
        = Except.bind (protocolEncodeList (p :: ps))
            (fun enc => Except.ok (reqHeaders (asciiBytes "CONNECT") authority
              (Url.pathAndQuery ⟨asciiBytes "https", authority, path, query⟩)
              ++ [(availableName, enc)])) := rfl
    rw [connectRequestEncode_eq, hhl,
      protocolEncodeList_eq p ps hvalid] at henc
    simp only [Except.bind] at henc
    injection henc with henc
    subst henc
    have hpay : (headersEncode (reqHeaders (asciiBytes "CONNECT") authority
        (Url.pathAndQuery ⟨asciiBytes "https", authority, path, query⟩)
        ++ [(availableName,
          joinStrs ((p :: ps).map serializeString))])).length
        ≤ maxFrameSize := by
      simp only [List.length_append] at hsize
      omega
    rw [connectReadFrame _ t hpay]
    have hutf : ∀ q ∈ reqHeaders (asciiBytes "CONNECT") authority
        (Url.pathAndQuery ⟨asciiBytes "https", authority, path, query⟩)
        ++ [(availableName, joinStrs ((p :: ps).map serializeString))],
        isUtf8 q.2 = true := by
      intro q hq
      simp only [reqHeaders, List.mem_append, List.mem_cons,
        List.not_mem_nil, or_false] at hq
      rcases hq with (rfl | rfl | rfl | rfl | rfl) | rfl
      · decide
      · decide
      · exact isUtf8_of_ascii hauth_ascii
      · exact isUtf8_of_ascii hpq_ascii
      · decide
      · exact isUtf8_of_ascii (joinStrs_ascii hvalid)
    simp only [ConnectRequest.decodeHeaders, headersDecode_encode hutf]
    have k1 : headersGet (reqHeaders (asciiBytes "CONNECT") authority
        (Url.pathAndQuery ⟨asciiBytes "https", authority, path, query⟩)
        ++ [(availableName, joinStrs ((p :: ps).map serializeString))])
        (asciiBytes ":scheme") = some (asciiBytes "https") := rfl
    have k2 : headersGet (reqHeaders (asciiBytes "CONNECT") authority
        (Url.pathAndQuery ⟨asciiBytes "https", authority, path, query⟩)
        ++ [(availableName, joinStrs ((p :: ps).map serializeString))])
        (asciiBytes ":authority") = some authority := rfl
    have k3 : headersGet (reqHeaders (asciiBytes "CONNECT") authority
        (Url.pathAndQuery ⟨asciiBytes "https", authority, path, query⟩)
        ++ [(availableName, joinStrs ((p :: ps).map serializeString))])
        (asciiBytes ":path") = some (Url.pathAndQuery
          ⟨asciiBytes "https", authority, path, query⟩) := rfl
    have k4 : headersGet (reqHeaders (asciiBytes "CONNECT") authority
        (Url.pathAndQuery ⟨asciiBytes "https", authority, path, query⟩)
        ++ [(availableName, joinStrs ((p :: ps).map serializeString))])
        (asciiBytes ":method") = some (asciiBytes "CONNECT") := rfl
    have k5 : headersGet (reqHeaders (asciiBytes "CONNECT") authority
        (Url.pathAndQuery ⟨asciiBytes "https", authority, path, query⟩)
        ++ [(availableName, joinStrs ((p :: ps).map serializeString))])
        (asciiBytes ":protocol") = some (asciiBytes "webtransport") := rfl
    have k6 : headersGet (reqHeaders (asciiBytes "CONNECT") authority
        (Url.pathAndQuery ⟨asciiBytes "https", authority, path, query⟩)
        ++ [(availableName, joinStrs ((p :: ps).map serializeString))])
        availableName
        = some (joinStrs ((p :: ps).map serializeString)) := rfl
    have hpd := protocolDecodeList_join p ps hvalid
    simp only [ConnectRequest.decodeHeaderList, k1, k2, k3, k4, k5, k6, hmc,
      hpd, hurl', if_true, bind, Except.bind, pure, Except.pure]

/-- `ConnectResponse::read` inverts `ConnectResponse::encode` for a 2xx
status, a valid selected protocol and an in-bounds frame, consuming exactly
the frame. -/
theorem connectResponseRead_encode (st : Nat) (pr : Option (List Nat))
    (t frame : List Nat)
    (hst : statusIsSuccess st = true)
    (hp : ∀ q, pr = some q → stringRefValid q = true)
    (henc : ConnectResponse.encode ⟨st, pr⟩ = .ok frame)
    (hsize : frame.length ≤ maxFrameSize) :
    ConnectResponse.read (frame ++ t) = .ok (⟨st, pr⟩, t) := by
  have hstb : 200 ≤ st ∧ st < 300 := by
    have h := hst
    simp only [statusIsSuccess, Bool.and_eq_true, decide_eq_true_eq] at h
    exact h
  have hsp : statusParse (statusBytes st) = some st :=
    statusParse_bytes st (by omega) (by omega)
  have hdig : ∀ b ∈ statusBytes st, b < 0x80 := by
    intro b hb
    simp only [statusBytes, List.mem_cons, List.not_mem_nil, or_false] at hb
    rcases hb with rfl | rfl | rfl <;> omega
  cases pr with
  | none =>
    have hhl : ConnectResponse.headerList ⟨st, none⟩
        = .ok (respBaseHeaders (statusBytes st)) := rfl
    rw [connectResponseEncode_eq, hhl] at henc
    simp only [Except.bind] at henc
    injection henc with henc
    subst henc
    have hpay : (headersEncode (respBaseHeaders (statusBytes st))).length
        ≤ maxFrameSize := by
      simp only [List.length_append] at hsize
      omega
    rw [connectRespReadFrame _ t hpay]
    have hutf : ∀ q ∈ respBaseHeaders (statusBytes st), isUtf8 q.2 = true := by
      intro q hq
      simp only [respBaseHeaders, List.mem_cons, List.not_mem_nil, or_false]
        at hq
      rcases hq with rfl | rfl
      · exact isUtf8_of_ascii hdig
      · decide
    simp only [ConnectResponse.decodeHeaders, headersDecode_encode hutf]
    have g1 : headersGet (respBaseHeaders (statusBytes st))
        (asciiBytes ":status") = some (statusBytes st) := rfl
    have g2 : headersGet (respBaseHeaders (statusBytes st)) selectedName
        = none := rfl
    simp only [ConnectResponse.decodeHeaderList, g1, g2, hsp, hst, if_true,
      bind, Except.bind, pure, Except.pure]
  | some q =>
    have hq : stringRefValid q = true := hp q rfl
    have hhl : ConnectResponse.headerList ⟨st, some q⟩
        = Except.bind (protocolEncodeItem q)
            (fun enc => Except.ok (respBaseHeaders (statusBytes st)
              ++ [(selectedName, enc)])) := rfl
    rw [connectResponseEncode_eq, hhl, protocolEncodeItem, if_pos hq] at henc
    simp only [Except.bind] at henc
    injection henc with henc
    subst henc
    have hpay : (headersEncode (respBaseHeaders (statusBytes st)
        ++ [(selectedName, serializeString q)])).length ≤ maxFrameSize := by
      simp only [List.length_append] at hsize
      omega
    rw [connectRespReadFrame _ t hpay]
    have hutf : ∀ r ∈ respBaseHeaders (statusBytes st)
        ++ [(selectedName, serializeString q)], isUtf8 r.2 = true := by
      intro r hr
      simp only [respBaseHeaders, List.mem_append, List.mem_cons,
        List.not_mem_nil, or_false] at hr
      rcases hr with (rfl | rfl) | rfl
      · exact isUtf8_of_ascii hdig
      · decide
      · exact isUtf8_of_ascii (serializeString_ascii hq)
    simp only [ConnectResponse.decodeHeaders, headersDecode_encode hutf]
    have g1 : headersGet (respBaseHeaders (statusBytes st)
        ++ [(selectedName, serializeString q)]) (asciiBytes ":status")
        = some (statusBytes st) := rfl
    have g2 : headersGet (respBaseHeaders (statusBytes st)
        ++ [(selectedName, serializeString q)]) selectedName
        = some (serializeString q) := rfl
    have hpi : protocolDecodeItem (serializeString q) = .ok q :=
      protocolDecodeItem_serialize q hq
    simp only [ConnectResponse.decodeHeaderList, g1, g2, hsp, hst, if_true,
      hpi, bind, Except.bind, pure, Except.pure]

/-- C5: each reader inverts its encoder and consumes exactly the encoded
bytes, leaving the tail intact, on the encodable domain: well-formed
capsules; settings maps without GREASE ids or duplicates whose payload fits
a frame; CONNECT requests with a well-formed https URL, valid protocol
names, and an in-bounds frame; CONNECT responses with a 2xx status, a valid
selected protocol, and an in-bounds frame. -/
theorem C5_readers_exact_consumption (c : Capsule) (s : Settings) (url : Url)
    (ps : List (List Nat)) (st : Nat) (pr : Option (List Nat))
    (t reqFrame respFrame : List Nat)
    (hc : c.wf)
    (hs1 : ∀ p ∈ s, p.1 < 2 ^ 62 ∧ p.2 < 2 ^ 62 ∧ settingIsGrease p.1 = false)
    (hs2 : (s.map Prod.fst).Nodup)
    (hs3 : (Settings.encodePairs s).length ≤ maxFrameSize)
    (hu : url.wf) (hps : ∀ p ∈ ps, stringRefValid p = true)
    (hreq : ConnectRequest.encode ⟨url, ps⟩ = .ok reqFrame)
    (hreqsize : reqFrame.length ≤ maxFrameSize)
    (hst : statusIsSuccess st = true)
    (hpr : ∀ q, pr = some q → stringRefValid q = true)
    (hresp : ConnectResponse.encode ⟨st, pr⟩ = .ok respFrame)
    (hrespsize : respFrame.length ≤ maxFrameSize) :
    Capsule.read (c.encode ++ t) = .ok (some c, t)
    ∧ Settings.read (Settings.encode s ++ t) = .ok (s, t)
    ∧ ConnectRequest.read (reqFrame ++ t) = .ok (⟨url, ps⟩, t)
    ∧ ConnectResponse.read (respFrame ++ t) = .ok (⟨st, pr⟩, t) :=
  ⟨Capsule.read_encode_wf c t hc,
   Settings.read_encode_exact s t hs1 hs2 hs3,
   connectRequestRead_encode url ps t reqFrame hu hps hreq hreqsize,
   connectResponseRead_encode st pr t respFrame hst hpr hresp hrespsize⟩

set_option maxRecDepth 10000 in
/-- C5 witness: a grease capsule, a one-entry settings map, a minimal
request and a 200 response all round-trip past the tail byte 9. -/
theorem C5_readers_witness :
    Capsule.read (Capsule.encode (.grease 0) ++ [9])
      = .ok (some (.grease 0), [9])
    ∧ Settings.read (Settings.encode [(0x33, 1)] ++ [9])
      = .ok ([(0x33, 1)], [9])
    ∧ ConnectRequest.read (c5ReqFrame ++ [9]) = .ok (⟨c5Url, []⟩, [9])
    ∧ ConnectResponse.read (c5RespFrame ++ [9]) = .ok (⟨200, none⟩, [9]) :=
  C5_readers_exact_consumption (.grease 0) [(0x33, 1)] c5Url [] 200 none [9]
    c5ReqFrame c5RespFrame
    (show 0x29 * 0 + 0x17 < 2 ^ 62 by decide) (by decide) (by decide)
    (by decide) ⟨rfl, by decide, rfl, rfl, rfl, rfl⟩ (by simp) rfl
    (by decide) rfl (fun q h => nomatch h) rfl (by decide)

/-- C5 counterexample: a GREASE setting id encodes but is silently dropped
on read, so the Settings round trip does not return the encoded map. -/
theorem C5_grease_settings_counterexample :
    Settings.read (Settings.encode [(0x21, 5)] ++ [7]) = .ok ([], [7])
    ∧ ([] : Settings) ≠ [(0x21, 5)] := ⟨rfl, by decide⟩

end WebTransport
